import Mathlib

/-!
Shallow embedding of the muxyard repository (Go) for specification checking.

Modules embedded:
* `src/internal/tmux/tmux.go`  — session directory and orchestration
  (`ListSessions`, `CreateSession`, `GenerateSessionName`).
* `src/internal/git/git.go`    — repository scanner (`FindRepositories`,
  `findReposInDirectory`).
* `src/internal/ui/main.go`    — the interaction state machine (`Update` and
  the per-view key handlers), with external subprocess calls made explicit
  as an emitted call trace and subprocess results supplied by an
  environment record.

Machine strings are modelled as Lean `String` (Go strings are byte slices;
all inputs relevant to the claims are ASCII so the identification is exact).
External subprocess invocations are modelled by an `ExecResult` input or by
boolean oracles in an `Env` record, and every call issued is recorded in an
explicit trace so that "issues no external call" claims are statable.
-/

namespace Muxyard

/-! ### String helpers (models of the Go standard library functions used) -/

/-- Model of `strings.Split(s, sep)` for a one-character separator:
splits on every occurrence, keeping empty fields; the empty input gives
one empty field, as in Go. -/
def splitOnChar (sep : Char) : List Char → List (List Char)
  | [] => [[]]
  | c :: rest =>
    let r := splitOnChar sep rest
    if c = sep then [] :: r
    else
      match r with
      | [] => [[c]]
      | h :: t => (c :: h) :: t

/-- Model of `strings.TrimSpace`: drop whitespace from both ends. -/
def trimSpace (cs : List Char) : List Char :=
  ((cs.dropWhile Char.isWhitespace).reverse.dropWhile Char.isWhitespace).reverse

/-- Model of `strings.TrimSpace` on `String`. -/
def trimSpaceStr (s : String) : String := String.mk (trimSpace s.data)

/-- Decimal digit value of a character, if it is a digit. -/
def digitVal (c : Char) : Option Nat :=
  if c.isDigit then some (c.toNat - Char.toNat (Char.ofNat 48)) else none

/-- Parse a nonempty all-digit character list as a natural number. -/
def parseNatDigits : List Char → Option Nat
  | [] => none
  | cs =>
    cs.foldl (fun acc c => acc.bind fun n => (digitVal c).map fun d => n * 10 + d)
      (some 0)

/-- Model of `strconv.Atoi`: optional sign followed by at least one digit
(overflow is not modelled; the repository only parses window counts). -/
def atoi (s : String) : Option Int :=
  match s.data with
  | '-' :: rest => (parseNatDigits rest).map fun n => -(n : Int)
  | '+' :: rest => (parseNatDigits rest).map fun n => (n : Int)
  | cs => (parseNatDigits cs).map fun n => (n : Int)

/-- Model of `strings.HasPrefix`. -/
def hasPrefixStr (s pre : String) : Bool := pre.data.isPrefixOf s.data

/-- Model of `strings.TrimPrefix`: drop the prefix when present. -/
def trimPrefixStr (s pre : String) : String :=
  if pre.data.isPrefixOf s.data then String.mk (s.data.drop pre.data.length) else s

/-- Model of `strings.Count(s, sep)` for a one-character separator. -/
def countChar (c : Char) (s : String) : Nat := s.data.count c

/-- Model of `strings.Join(elems, sep)`. -/
def joinStr (sep : String) : List String → String
  | [] => ""
  | [x] => x
  | x :: xs => x ++ sep ++ joinStr sep xs

/-! ### `src/internal/tmux/tmux.go` — data model and session directory -/

/-- `tmux.Session` (tmux.go lines 14-18). -/
structure Session where
  Name : String
  Windows : Int
  Attached : Bool
deriving Repr, DecidableEq, Inhabited

/-- Result of one external subprocess invocation, as seen by the Go code:
either it produced output, or it ran and exited nonzero
(`*exec.ExitError` with an exit code), or it failed to run at all. -/
inductive ExecResult where
  | ok (output : String)
  | exitErr (code : Nat)
  | startErr (message : String)
deriving Repr, DecidableEq

/-- Build the `Session` parsed from one well-formed (three-field) line:
name, window count via `strconv.Atoi` (left 0 when empty or unparsable),
attached flag compared against `"1"` (tmux.go lines 51-61). -/
def mkSessionOfParts (parts : List (List Char)) : Session :=
  let name := String.mk (parts.getD 0 [])
  let windowsStr := parts.getD 1 []
  let attached := parts.getD 2 [] = ['1']
  let windows : Int :=
    if windowsStr ≠ [] then
      match atoi (String.mk windowsStr) with
      | some w => w
      | none => 0
    else 0
  ⟨name, windows, attached⟩

/-- The parsing loop of `ListSessions` (tmux.go lines 39-66): trim the
output, split into lines, skip empty lines and lines that do not have
exactly three colon-separated fields, build a `Session` from the rest. -/
def parseSessionsOutput (out : String) : List Session :=
  let lines := splitOnChar (Char.ofNat 10) (trimSpace out.data)
  lines.foldl
    (fun sessions line =>
      if line = [] then sessions
      else
        let parts := splitOnChar ':' line
        if parts.length = 3 then sessions ++ [mkSessionOfParts parts]
        else sessions)
    []

/-- `tmux.ListSessions` (tmux.go lines 29-67) as a function of the external
invocation result: exit code 1 means "no sessions" and yields the empty
list without error; any other failure is propagated as an error; a
successful invocation is parsed by `parseSessionsOutput`. -/
def ListSessions : ExecResult → Except String (List Session)
  | .ok out => .ok (parseSessionsOutput out)
  | .exitErr code =>
      if code = 1 then .ok []
      else .error "list-sessions failed"
  | .startErr message => .error message

/-- Whether a session-directory query result is an error. -/
def isDirectoryError : Except String (List Session) → Bool
  | .error _ => true
  | .ok _ => false

instance {ε α : Type} [DecidableEq ε] [DecidableEq α] : DecidableEq (Except ε α) :=
  fun x y =>
    match x, y with
    | .ok a, .ok b =>
      if h : a = b then .isTrue (by rw [h])
      else .isFalse (by intro hc; cases hc; exact h rfl)
    | .error a, .error b =>
      if h : a = b then .isTrue (by rw [h])
      else .isFalse (by intro hc; cases hc; exact h rfl)
    | .ok _, .error _ => .isFalse (by intro hc; cases hc)
    | .error _, .ok _ => .isFalse (by intro hc; cases hc)

/-! ### `src/internal/tmux/tmux.go` — `GenerateSessionName` (lines 160-183)

The Go loop runs until it finds a candidate name absent from the session
list; it always terminates because the candidates are pairwise distinct
strings and the list is finite.  The embedding makes that explicit: the
loop body is structurally recursive on a fuel argument, the fuel
`existing.length + 1` is proved sufficient below (`GenerateSessionName`
returns a free name unconditionally), so the fueled function has exactly
the source loop's semantics. -/

/-- The decimal digit character for `d < 10`, i.e. Go's `'0' + d`. -/
def decimalDigit (d : Nat) : Char := Char.ofNat (48 + d)

/-- Decimal digits of `n`, most significant first, computed with explicit
fuel so the definition is structural (one digit is produced per division
by ten, so any fuel above the number of digits is enough). -/
def natDecimalAux : Nat → Nat → List Char
  | 0, _ => []
  | fuel + 1, n =>
    if n < 10 then [decimalDigit n]
    else natDecimalAux fuel (n / 10) ++ [decimalDigit (n % 10)]

/-- Decimal representation of a natural number, as written by Go `%d`. -/
def natDecimal (n : Nat) : List Char := natDecimalAux (n + 1) n

/-- Decimal representation as a `String`. -/
def natRepr (n : Nat) : String := String.mk (natDecimal n)

/-- Model of Go `filepath.Base` (Unix): empty path gives `"."`; trailing
separators are stripped; a path of only separators gives `"/"`; otherwise
the part after the last separator. -/
def filepathBase (p : String) : String :=
  if p = "" then "."
  else
    let stripped := (p.data.reverse.dropWhile (fun c => c = '/')).reverse
    if stripped = [] then "/"
    else String.mk (stripped.reverse.takeWhile (fun c => c ≠ '/')).reverse

/-- The loop of `GenerateSessionName` (tmux.go lines 164-180): `name` is
the current candidate and `counter` the current counter value; while the
candidate is taken, increment the counter and retry with
`baseName ++ "_" ++ counter`. -/
def GenerateSessionNameAux (baseName : String) (names : List String) :
    String → Nat → Nat → String
  | name, _, 0 => name
  | name, counter, fuel + 1 =>
    if name ∈ names then
      GenerateSessionNameAux baseName names
        (baseName ++ "_" ++ natRepr (counter + 1)) (counter + 1) fuel
    else name

/-- `tmux.GenerateSessionName` (tmux.go lines 160-183): candidate derived
from the final path component, numeric suffixes starting at 2 while the
name is taken. -/
def GenerateSessionName (repoPath : String) (existingSessions : List Session) : String :=
  let baseName := filepathBase repoPath
  GenerateSessionNameAux baseName (existingSessions.map Session.Name)
    baseName 1 (existingSessions.length + 1)

/-- The candidate tried by the loop at counter value `k`. -/
def nameCandidate (baseName : String) (k : Nat) : String :=
  if k = 1 then baseName else baseName ++ "_" ++ natRepr k

end Muxyard

namespace Muxyard

example : ListSessions (.exitErr 1) = .ok [] := by decide

example :
    ListSessions (.ok "alpha:2:1\nbeta:1:0") =
      .ok [⟨"alpha", 2, true⟩, ⟨"beta", 1, false⟩] := by decide

example : ListSessions (.ok "garbage") = .ok [] := by decide

example : filepathBase "/home/user/test" = "test" := by decide

example : filepathBase "/home/u/dev" = "dev" := by decide

example :
    GenerateSessionName "/home/user/test"
      [⟨"test", 1, false⟩, ⟨"test_2", 1, false⟩] = "test_3" := by decide

example :
    GenerateSessionName "/home/user/myproject"
      [⟨"test", 1, false⟩, ⟨"test_2", 1, false⟩] = "myproject" := by decide

example : GenerateSessionName "/home/u/dev" [⟨"dev", 1, false⟩] = "dev_2" := by decide

/-! ### Correctness of the decimal representation and the name loop -/

theorem natDecimalAux_eq_natDecimal : ∀ n fuel, n < fuel → natDecimalAux fuel n = natDecimal n := by
  intro n
  induction n using Nat.strong_induction_on with
  | _ n ih =>
    intro fuel h
    match fuel with
    | 0 => omega
    | f + 1 =>
      by_cases h10 : n < 10
      · simp [natDecimalAux, natDecimal, h10]
      · have hdiv : n / 10 < n := Nat.div_lt_self (by omega) (by omega)
        have h1 : natDecimalAux (f + 1) n = natDecimalAux f (n / 10) ++ [decimalDigit (n % 10)] := by
          simp [natDecimalAux, h10]
        have h2 : natDecimal n = natDecimalAux n (n / 10) ++ [decimalDigit (n % 10)] := by
          simp [natDecimal, natDecimalAux, h10]
        rw [h1, h2, ih (n / 10) hdiv f (by omega), ih (n / 10) hdiv n hdiv]

theorem natDecimal_of_lt {n : Nat} (h : n < 10) : natDecimal n = [decimalDigit n] := by
  simp [natDecimal, natDecimalAux, h]

theorem natDecimal_of_ge {n : Nat} (h : ¬n < 10) :
    natDecimal n = natDecimal (n / 10) ++ [decimalDigit (n % 10)] := by
  have hdiv : n / 10 < n := Nat.div_lt_self (by omega) (by omega)
  have h2 : natDecimal n = natDecimalAux n (n / 10) ++ [decimalDigit (n % 10)] := by
    simp [natDecimal, natDecimalAux, h]
  rw [h2, natDecimalAux_eq_natDecimal (n / 10) n hdiv]

theorem natDecimal_ne_nil (n : Nat) : natDecimal n ≠ [] := by
  by_cases h : n < 10
  · simp [natDecimal_of_lt h]
  · simp [natDecimal_of_ge h]

theorem decimalDigit_inj : ∀ m, m < 10 → ∀ n, n < 10 → decimalDigit m = decimalDigit n → m = n := by
  decide

theorem natDecimal_inj : ∀ m n, natDecimal m = natDecimal n → m = n := by
  intro m
  induction m using Nat.strong_induction_on with
  | _ m ih =>
    intro n h
    by_cases hm : m < 10 <;> by_cases hn : n < 10
    · rw [natDecimal_of_lt hm, natDecimal_of_lt hn] at h
      simp only [List.cons.injEq, and_true] at h
      exact decimalDigit_inj m hm n hn h
    · exfalso
      rw [natDecimal_of_lt hm, natDecimal_of_ge hn] at h
      have hlen := congrArg List.length h
      simp only [List.length_append, List.length_cons, List.length_nil] at hlen
      have hpos := List.length_pos.mpr (natDecimal_ne_nil (n / 10))
      omega
    · exfalso
      rw [natDecimal_of_ge hm, natDecimal_of_lt hn] at h
      have hlen := congrArg List.length h
      simp only [List.length_append, List.length_cons, List.length_nil] at hlen
      have hpos := List.length_pos.mpr (natDecimal_ne_nil (m / 10))
      omega
    · rw [natDecimal_of_ge hm, natDecimal_of_ge hn] at h
      have hrev := congrArg List.reverse h
      simp only [List.reverse_append, List.reverse_cons, List.reverse_nil, List.nil_append,
        List.singleton_append, List.cons.injEq, List.reverse_inj] at hrev
      obtain ⟨hd, htl⟩ := hrev
      have hmod : m % 10 = n % 10 :=
        decimalDigit_inj _ (Nat.mod_lt _ (by omega)) _ (Nat.mod_lt _ (by omega)) hd
      have hdivlt : m / 10 < m := Nat.div_lt_self (by omega) (by omega)
      have hdiv : m / 10 = n / 10 := ih (m / 10) hdivlt (n / 10) htl
      omega

theorem natRepr_inj {m n : Nat} (h : natRepr m = natRepr n) : m = n := by
  apply natDecimal_inj
  have := congrArg String.data h
  simpa [natRepr] using this

theorem nameCandidate_inj (base : String) :
    ∀ {i j : Nat}, 1 ≤ i → 1 ≤ j → nameCandidate base i = nameCandidate base j → i = j := by
  have hsuffix : ∀ k : Nat, (base ++ "_" ++ natRepr k).data = base.data ++ '_' :: natDecimal k := by
    intro k
    simp [String.data_append, natRepr]
  intro i j hi hj h
  by_cases h1 : i = 1 <;> by_cases h2 : j = 1
  · omega
  · exfalso
    unfold nameCandidate at h
    rw [if_pos h1, if_neg h2] at h
    have hdata := congrArg String.data h
    rw [hsuffix] at hdata
    have hlen := congrArg List.length hdata
    simp only [List.length_append, List.length_cons] at hlen
    omega
  · exfalso
    unfold nameCandidate at h
    rw [if_neg h1, if_pos h2] at h
    have hdata := congrArg String.data h
    rw [hsuffix] at hdata
    have hlen := congrArg List.length hdata
    simp only [List.length_append, List.length_cons] at hlen
    omega
  · unfold nameCandidate at h
    rw [if_neg h1, if_neg h2] at h
    have hdata := congrArg String.data h
    rw [hsuffix, hsuffix] at hdata
    have h3 := List.append_cancel_left hdata
    have h4 : natDecimal i = natDecimal j := by
      injection h3
    exact natDecimal_inj i j h4

theorem exists_free_candidate (base : String) (names : List String) :
    ∃ j, j < names.length + 1 ∧ nameCandidate base (1 + j) ∉ names := by
  by_contra hall
  push_neg at hall
  have hmem : ∀ a : Fin (names.length + 1), nameCandidate base (1 + (a : Nat)) ∈ names :=
    fun a => hall a a.isLt
  have hcard :
      (Finset.univ : Finset (Fin (names.length + 1))).card ≤ names.toFinset.card := by
    refine Finset.card_le_card_of_injOn
      (fun a : Fin (names.length + 1) => nameCandidate base (1 + (a : Nat))) ?_ ?_
    · intro a _
      exact List.mem_toFinset.mpr (hmem a)
    · intro a _ b _ hab
      have := nameCandidate_inj base (i := 1 + (a : Nat)) (j := 1 + (b : Nat))
        (by omega) (by omega) hab
      exact Fin.ext (by omega)
  have hlen := List.toFinset_card_le names
  simp only [Finset.card_univ, Fintype.card_fin] at hcard
  omega

theorem GenerateSessionNameAux_free (base : String) (names : List String) :
    ∀ fuel counter, 1 ≤ counter →
      (∃ j, j < fuel ∧ nameCandidate base (counter + j) ∉ names) →
      GenerateSessionNameAux base names (nameCandidate base counter) counter fuel ∉ names := by
  intro fuel
  induction fuel with
  | zero =>
    intro counter _ h
    obtain ⟨j, hj, _⟩ := h
    omega
  | succ f ih =>
    intro counter hc h
    obtain ⟨j, hj, hfree⟩ := h
    by_cases hmem : nameCandidate base counter ∈ names
    · have hj0 : j ≠ 0 := by
        intro h0
        rw [h0, Nat.add_zero] at hfree
        exact hfree hmem
      obtain ⟨j2, rfl⟩ : ∃ j2, j = j2 + 1 := ⟨j - 1, by omega⟩
      have hne : counter + 1 ≠ 1 := by omega
      have hcand : nameCandidate base (counter + 1) = base ++ "_" ++ natRepr (counter + 1) := by
        unfold nameCandidate
        rw [if_neg hne]
      have hstep :
          GenerateSessionNameAux base names (nameCandidate base counter) counter (f + 1) =
            GenerateSessionNameAux base names
              (nameCandidate base (counter + 1)) (counter + 1) f := by
        rw [hcand]
        simp only [GenerateSessionNameAux]
        rw [if_pos hmem]
      rw [hstep]
      exact ih (counter + 1) (by omega) ⟨j2, by omega, by
        have harith : counter + 1 + j2 = counter + (j2 + 1) := by omega
        rw [harith]; exact hfree⟩
    · have hstep :
          GenerateSessionNameAux base names (nameCandidate base counter) counter (f + 1) =
            nameCandidate base counter := by
        simp only [GenerateSessionNameAux]
        rw [if_neg hmem]
      rw [hstep]
      exact hmem

theorem stringExt : ∀ {s t : String}, s.data = t.data → s = t
  | ⟨_⟩, ⟨_⟩, rfl => rfl

theorem aux_step_mem {base name : String} {names : List String} {counter fuel : Nat}
    (h : name ∈ names) :
    GenerateSessionNameAux base names name counter (fuel + 1) =
      GenerateSessionNameAux base names
        (base ++ "_" ++ natRepr (counter + 1)) (counter + 1) fuel := by
  simp only [GenerateSessionNameAux]
  rw [if_pos h]

theorem aux_step_free {base name : String} {names : List String} {counter fuel : Nat}
    (h : name ∉ names) :
    GenerateSessionNameAux base names name counter (fuel + 1) = name := by
  simp only [GenerateSessionNameAux]
  rw [if_neg h]

theorem cand2_eq (base : String) : base ++ "_" ++ natRepr 2 = base ++ "_2" := by
  have h2 : natRepr 2 = "2" := by decide
  apply stringExt
  rw [h2]
  simp [String.data_append]

theorem cand3_eq (base : String) : base ++ "_" ++ natRepr 3 = base ++ "_3" := by
  have h3 : natRepr 3 = "3" := by decide
  apply stringExt
  rw [h3]
  simp [String.data_append]

/-- Claim C1: `GenerateSessionName` derives its candidate from the final
path component of the input path; if that component `X` is present in the
session list (and `X_2` is free) it returns `X_2`, if `X_2` is also
present (and `X_3` is free) it returns `X_3`; and in every case the
returned name is absent from the input session list.  The function is a
pure, deterministic Lean function of its two inputs by construction. -/
theorem generateSessionName_unique (p : String) (ss : List Session) :
    GenerateSessionName p ss ∉ ss.map Session.Name
    ∧ (filepathBase p ∉ ss.map Session.Name →
        GenerateSessionName p ss = filepathBase p)
    ∧ (filepathBase p ∈ ss.map Session.Name →
        filepathBase p ++ "_2" ∉ ss.map Session.Name →
        GenerateSessionName p ss = filepathBase p ++ "_2")
    ∧ (filepathBase p ∈ ss.map Session.Name →
        filepathBase p ++ "_2" ∈ ss.map Session.Name →
        filepathBase p ++ "_3" ∉ ss.map Session.Name →
        GenerateSessionName p ss = filepathBase p ++ "_3") := by
  set base := filepathBase p with hbase
  set names := ss.map Session.Name with hnames
  have hlen : names.length = ss.length := List.length_map _ _
  have hgen :
      GenerateSessionName p ss =
        GenerateSessionNameAux base names base 1 (ss.length + 1) := rfl
  refine ⟨?_, ?_, ?_, ?_⟩
  · rw [hgen]
    have hfuel : ss.length + 1 = names.length + 1 := by omega
    rw [hfuel]
    have hcand1 : (base : String) = nameCandidate base 1 := rfl
    rw [hcand1]
    exact GenerateSessionNameAux_free base names (names.length + 1) 1 (by omega)
      (by
        obtain ⟨j, hj, hfree⟩ := exists_free_candidate base names
        exact ⟨j, hj, hfree⟩)
  · intro hb
    rw [hgen, aux_step_free hb]
  · intro hb hb2
    have hpos : 0 < names.length := List.length_pos.mpr (List.ne_nil_of_mem hb)
    obtain ⟨L1, hL⟩ : ∃ L1, ss.length = L1 + 1 := ⟨ss.length - 1, by omega⟩
    rw [hgen, hL, aux_step_mem hb, cand2_eq, aux_step_free hb2]
  · intro hb hb2 hb3
    have hne : base ≠ base ++ "_2" := by
      intro h
      have hdata := congrArg String.data h
      rw [String.data_append] at hdata
      have hlen2 := congrArg List.length hdata
      simp at hlen2
    have h2le : 2 ≤ names.length := by
      have hsub : ({base, base ++ "_2"} : Finset String) ⊆ names.toFinset := by
        intro x hx
        rcases Finset.mem_insert.mp hx with rfl | hx2
        · exact List.mem_toFinset.mpr hb
        · rw [Finset.mem_singleton.mp hx2]
          exact List.mem_toFinset.mpr hb2
      have hc : ({base, base ++ "_2"} : Finset String).card = 2 := Finset.card_pair hne
      have hcc := Finset.card_le_card hsub
      have hfc := List.toFinset_card_le names
      omega
    obtain ⟨L2, hL⟩ : ∃ L2, ss.length = L2 + 2 := ⟨ss.length - 2, by omega⟩
    have hb2m : base ++ "_" ++ natRepr 2 ∈ names := by rw [cand2_eq]; exact hb2
    rw [hgen, hL, aux_step_mem hb, aux_step_mem hb2m, cand3_eq, aux_step_free hb3]

/-- Witness for `generateSessionName_unique` at the repository's own test
inputs (tmux_test.go lines 20-41). -/
theorem generateSessionName_unique_witness :
    GenerateSessionName "/home/user/test"
        [⟨"test", 1, false⟩, ⟨"test_2", 1, false⟩] = "test_3" ∧
      GenerateSessionName "/home/u/dev" [⟨"dev", 1, false⟩] = "dev_2" := by
  constructor
  · have h := (generateSessionName_unique "/home/user/test"
      [⟨"test", 1, false⟩, ⟨"test_2", 1, false⟩]).2.2.2
    have hr := h (by decide) (by decide) (by decide)
    rw [hr]
    decide
  · have h := (generateSessionName_unique "/home/u/dev" [⟨"dev", 1, false⟩]).2.2.1
    have hr := h (by decide) (by decide)
    rw [hr]
    decide

/-! ### Session directory error handling (claims C7 and C8) -/

/-- Claim C7: an external `list-sessions` invocation exiting with the
specific status meaning "no sessions exist" (exit code 1) yields the empty
session list and no error; any other invocation failure yields an error. -/
theorem listSessions_exit_codes (c : Nat) (msg : String) :
    ListSessions (.exitErr 1) = .ok []
    ∧ (c ≠ 1 → isDirectoryError (ListSessions (.exitErr c)) = true)
    ∧ isDirectoryError (ListSessions (.startErr msg)) = true := by
  refine ⟨rfl, ?_, rfl⟩
  intro h
  simp [ListSessions, isDirectoryError, h]

/-- Witness for `listSessions_exit_codes` at exit code 2. -/
theorem listSessions_exit_codes_witness :
    (2 : Nat) ≠ 1 ∧ isDirectoryError (ListSessions (.exitErr 2)) = true :=
  ⟨by decide, (listSessions_exit_codes 2 "boom").2.1 (by decide)⟩

/-- A line is kept by the `ListSessions` parsing loop exactly when it is
nonempty and splits into exactly three colon-separated fields. -/
def keptLine (line : List Char) : Bool :=
  !line.isEmpty && (splitOnChar ':' line).length == 3

theorem parseSessionsOutput_fold (lines : List (List Char)) (acc : List Session) :
    lines.foldl
        (fun sessions line =>
          if line = [] then sessions
          else
            let parts := splitOnChar ':' line
            if parts.length = 3 then sessions ++ [mkSessionOfParts parts]
            else sessions)
        acc =
      acc ++ (lines.filter keptLine).map (fun line => mkSessionOfParts (splitOnChar ':' line)) := by
  induction lines generalizing acc with
  | nil => simp
  | cons line rest ih =>
    by_cases hnil : line = []
    · subst hnil
      simp [keptLine, ih]
    · by_cases h3 : (splitOnChar ':' line).length = 3
      · have hk : keptLine line = true := by
          simp [keptLine, hnil, h3]
        simp only [List.foldl_cons, List.filter_cons, hk, if_neg hnil, if_pos h3, if_true]
        rw [ih]
        simp
      · have hk : keptLine line = false := by
          simp [keptLine, hnil, h3]
        simp only [List.foldl_cons, List.filter_cons, hk, if_neg hnil, if_neg h3]
        rw [ih]
        simp

/-- Counterexample to claim C8: output whose lines are not all in the
three-field format is not rejected — the malformed lines are skipped and
the query succeeds.  With output `"sess1:2:1\ngarbage"` (second line has
one field) the query returns the one well-formed session, and with output
`"garbage"` it returns the empty list; neither is an error. -/
theorem listSessions_malformed_not_error :
    ListSessions (.ok "sess1:2:1\ngarbage") = .ok [⟨"sess1", 2, true⟩]
    ∧ isDirectoryError (ListSessions (.ok "sess1:2:1\ngarbage")) = false
    ∧ isDirectoryError (ListSessions (.ok "garbage")) = false := by
  decide

/-- Amended claim C8: when the external invocation succeeds, the session
directory query never fails; every line that is empty or does not have
exactly three colon-separated fields is silently skipped, and the result
is exactly the sessions built from the remaining well-formed lines. -/
theorem listSessions_ok_skips_malformed (out : String) :
    ListSessions (.ok out) =
      .ok (((splitOnChar (Char.ofNat 10) (trimSpace out.data)).filter keptLine).map
        (fun line => mkSessionOfParts (splitOnChar ':' line)))
    ∧ isDirectoryError (ListSessions (.ok out)) = false := by
  constructor
  · simp only [ListSessions, parseSessionsOutput]
    rw [parseSessionsOutput_fold]
    simp
  · rfl

/-! ### `src/internal/config/config.go` — template data model -/

/-- `config.WindowConfig` (config.go lines 18-21). -/
structure WindowConfig where
  Name : String
  Command : String
deriving Repr, DecidableEq, Inhabited

/-- `config.SessionTemplate` (config.go lines 11-16). -/
structure SessionTemplate where
  Name : String
  Description : String
  Windows : List WindowConfig
  FocusedWindow : String
deriving Repr, DecidableEq, Inhabited

/-! ### External calls and the subprocess environment

Every external multiplexer invocation the Go code can make is reified as
an `ExtCall`; functions that invoke subprocesses return the list of calls
they issued, and an `Env` record supplies each call's success/failure
(modelling the exit status of `cmd.Run()`) together with the few other
process-level observations the code makes. -/

inductive ExtCall where
  | newSession (args : List String)
  | newWindow (args : List String)
  | selectWindow (target : String)
  | killSession (name : String)
  | renameSession (oldName newName : String)
  | attachSession (name : String)
  | switchClient (name : String)
deriving Repr, DecidableEq

/-- Subprocess environment: whether a given invocation succeeds, whether a
path exists and is a directory (`os.Stat`), the home directory, the
default path used by `getDefaultPath`, and whether the process runs inside
a multiplexer client (`TMUX` environment marker). -/
structure Env where
  runOk : ExtCall → Bool
  statIsDir : String → Bool
  homeDir : String
  defaultPath : String
  insideTmux : Bool

/-- Whether an `ExtCall` is a kill invocation (for the delete claims). -/
def ExtCall.isKill : ExtCall → Bool
  | .killSession _ => true
  | _ => false

/-! ### `src/internal/tmux/tmux.go` — `CreateSession` (lines 83-133) -/

/-- Arguments of the initial `new-session` invocation (tmux.go lines
88-99): detached session at `name` and `path`, optional window name,
optional command wrapped so the shell stays alive. -/
def firstWindowArgs (name path : String) (w : WindowConfig) : List String :=
  ["new-session", "-d", "-s", name, "-c", path]
    ++ (if w.Name ≠ "" then ["-n", w.Name] else [])
    ++ (if w.Command ≠ "" then ["sh", "-c", w.Command ++ "; exec $SHELL"] else [])

/-- Arguments of one additional `new-window` invocation (tmux.go lines
107-118). -/
def extraWindowArgs (name path : String) (w : WindowConfig) : List String :=
  ["new-window", "-t", name, "-c", path]
    ++ (if w.Name ≠ "" then ["-n", w.Name] else [])
    ++ (if w.Command ≠ "" then ["sh", "-c", w.Command ++ "; exec $SHELL"] else [])

/-- The window-creation loop of `CreateSession` (tmux.go lines 106-124):
windows after the first are created in order; a failure is fatal and
reports the failing window's 1-based position (`i + 2`). -/
def createWindowsLoop (env : Env) (name path : String) :
    List WindowConfig → Nat → Option String × List ExtCall
  | [], _ => (none, [])
  | w :: rest, i =>
    let call := ExtCall.newWindow (extraWindowArgs name path w)
    if env.runOk call then
      let (res, calls) := createWindowsLoop env name path rest (i + 1)
      (res, call :: calls)
    else (some ("failed to create window " ++ natRepr (i + 2)), [call])

/-- `tmux.CreateSession` (tmux.go lines 83-133): zero-window templates are
rejected before any external call; otherwise the first window's
`new-session` call is issued, then one `new-window` call per remaining
window (aborting on the first failure), then a best-effort
`select-window` whose failure is ignored.  Returns the error (if any)
and the list of external calls issued, in order. -/
def CreateSession (env : Env) (name path : String) (template : SessionTemplate) :
    Option String × List ExtCall :=
  match template.Windows with
  | [] => (some "template must have at least one window", [])
  | firstWindow :: rest =>
    let call0 := ExtCall.newSession (firstWindowArgs name path firstWindow)
    if env.runOk call0 then
      let (res, calls) := createWindowsLoop env name path rest 0
      match res with
      | some e => (some e, call0 :: calls)
      | none =>
        if template.FocusedWindow ≠ "" then
          (none, call0 :: calls ++ [ExtCall.selectWindow (name ++ ":" ++ template.FocusedWindow)])
        else (none, call0 :: calls)
    else (some "failed to create session", [call0])

/-- Claim C6: `CreateSession` on a template with an empty window list
fails (returns a validation error) and issues no external call at all, so
any interpretation of the (empty) call trace leaves any external session
table unchanged. -/
theorem createSession_empty_template (env : Env) (name path : String)
    (template : SessionTemplate) (h : template.Windows = []) :
    (CreateSession env name path template).1.isSome = true
    ∧ (CreateSession env name path template).2 = []
    ∧ ∀ (table : List Session) (apply : List Session → ExtCall → List Session),
        (CreateSession env name path template).2.foldl apply table = table := by
  have hc : CreateSession env name path template =
      (some "template must have at least one window", []) := by
    unfold CreateSession
    rw [h]
  rw [hc]
  exact ⟨rfl, rfl, fun table apply => rfl⟩

/-- Witness for `createSession_empty_template` on a concrete zero-window
template and a concrete environment. -/
theorem createSession_empty_template_witness :
    (CreateSession
        ⟨fun _ => true, fun _ => true, "/home/u", "/home/u", false⟩
        "dev" "/home/u/dev" ⟨"basic", "", [], ""⟩).2 = [] := by
  have h := createSession_empty_template
    ⟨fun _ => true, fun _ => true, "/home/u", "/home/u", false⟩
    "dev" "/home/u/dev" ⟨"basic", "", [], ""⟩ rfl
  exact h.2.1

/-! ### `src/internal/git/git.go` — repository data model -/

/-- `git.Repository` (git.go lines 10-13). -/
structure Repository where
  Name : String
  Path : String
deriving Repr, DecidableEq, Inhabited

/-! ### Fuzzy filter (claim C10)

The wrappers `fuzzyFilterSessions` and `fuzzyFilterRepos`
(src/internal/ui/main.go lines 662-707) delegate the matching to the
third-party library `github.com/sahilm/fuzzy`, whose source is not part
of this repository. -/

/-- One match as reported by the fuzzy library: the matched candidate,
its original index in the candidate list, and the matched character
positions. -/
structure FuzzyMatch where
  Str : String
  Index : Nat
  MatchedIndexes : List Nat
deriving Repr, DecidableEq

/-- Positions (leftmost-greedy, starting at offset `i`) at which the
first list occurs as a subsequence of the second, if it does. -/
def subseqPositionsAux : List Char → List Char → Nat → Option (List Nat)
  | [], _, _ => some []
  | _ :: _, [], _ => none
  | q :: qs, c :: cs, i =>
    if q = c then (subseqPositionsAux qs cs (i + 1)).map (fun ps => i :: ps)
    else subseqPositionsAux (q :: qs) cs (i + 1)

/-- Scan of the candidate list in order, keeping each candidate that
matches the query as a subsequence, tagged with its original index. -/
def fuzzyScan (query : String) : List String → Nat → List FuzzyMatch
  | [], _ => []
  | s :: rest, i =>
    match subseqPositionsAux query.data s.data 0 with
    | some ps => ⟨s, i, ps⟩ :: fuzzyScan query rest (i + 1)
    | none => fuzzyScan query rest (i + 1)

/-- Modelled from the spec: `fuzzy.Find` of `github.com/sahilm/fuzzy` (a
dependency whose source is not under this repository) "ranks candidates
by subsequence-fuzzy match, returns matches in ranked order while
preserving each match's original index and the matched character
positions".  The library's scoring function is not specified; the model
ranks by candidate length (any fixed deterministic rank yields the same
index-preservation properties, which are what the claims state). -/
def fuzzyFind (query : String) (candidates : List String) : List FuzzyMatch :=
  List.insertionSort (fun a b => a.Str.length ≤ b.Str.length) (fuzzyScan query candidates 0)

/-- `fuzzyFilterSessions` (main.go lines 662-683): empty query returns the
full session list; otherwise the sessions at the matches' original
indices, in match order. -/
def fuzzyFilterSessions (sessions : List Session) (query : String) : List Session :=
  if query = "" then sessions
  else
    let sessionNames := sessions.map Session.Name
    (fuzzyFind query sessionNames).map (fun mt => sessions.getD mt.Index default)

/-- `fuzzyFilterRepos` (main.go lines 685-707): like
`fuzzyFilterSessions` but searching the concatenation of repository name
and path. -/
def fuzzyFilterRepos (repos : List Repository) (query : String) : List Repository :=
  if query = "" then repos
  else
    let repoSearchTerms := repos.map (fun r => r.Name ++ " " ++ r.Path)
    (fuzzyFind query repoSearchTerms).map (fun mt => repos.getD mt.Index default)

theorem subseqPositionsAux_bounds :
    ∀ (qs cs : List Char) (i : Nat) (ps : List Nat),
      subseqPositionsAux qs cs i = some ps → ∀ p ∈ ps, i ≤ p ∧ p < i + cs.length := by
  intro qs
  induction qs with
  | nil =>
    intro cs i ps h p hp
    simp [subseqPositionsAux] at h
    subst h
    simp at hp
  | cons q qs ih =>
    intro cs
    induction cs with
    | nil =>
      intro i ps h
      simp [subseqPositionsAux] at h
    | cons c cs ihc =>
      intro i ps h p hp
      by_cases hqc : q = c
      · simp only [subseqPositionsAux, if_pos hqc, Option.map_eq_some'] at h
        obtain ⟨ps2, hps2, rfl⟩ := h
        rcases List.mem_cons.mp hp with rfl | hp2
        · exact ⟨Nat.le_refl _, by simp only [List.length_cons]; omega⟩
        · have := ih cs (i + 1) ps2 hps2 p hp2
          simp only [List.length_cons]
          omega
      · simp only [subseqPositionsAux, if_neg hqc] at h
        have := ihc (i + 1) ps h p hp
        simp only [List.length_cons]
        omega

theorem fuzzyScan_spec (query : String) :
    ∀ (cands : List String) (i : Nat), ∀ mt ∈ fuzzyScan query cands i,
      i ≤ mt.Index ∧ mt.Index - i < cands.length
      ∧ cands.getD (mt.Index - i) "" = mt.Str
      ∧ subseqPositionsAux query.data mt.Str.data 0 = some mt.MatchedIndexes := by
  intro cands
  induction cands with
  | nil => intro i mt hmt; simp [fuzzyScan] at hmt
  | cons s rest ih =>
    intro i mt hmt
    unfold fuzzyScan at hmt
    cases hm : subseqPositionsAux query.data s.data 0 with
    | some ps =>
      rw [hm] at hmt
      rcases List.mem_cons.mp hmt with rfl | htail
      · refine ⟨le_refl _, ?_, ?_, hm⟩ <;> simp
      · obtain ⟨h1, h2, h3, h4⟩ := ih (i + 1) mt htail
        refine ⟨by omega, by simp; omega, ?_, h4⟩
        have hsub : mt.Index - i = (mt.Index - (i + 1)) + 1 := by omega
        rw [hsub, List.getD_cons_succ]
        exact h3
    | none =>
      rw [hm] at hmt
      obtain ⟨h1, h2, h3, h4⟩ := ih (i + 1) mt hmt
      refine ⟨by omega, by simp; omega, ?_, h4⟩
      have hsub : mt.Index - i = (mt.Index - (i + 1)) + 1 := by omega
      rw [hsub, List.getD_cons_succ]
      exact h3

theorem fuzzyScan_pairwise (query : String) :
    ∀ (cands : List String) (i : Nat),
      (fuzzyScan query cands i).Pairwise (fun a b => a.Index < b.Index) := by
  intro cands
  induction cands with
  | nil => intro i; simp [fuzzyScan]
  | cons s rest ih =>
    intro i
    unfold fuzzyScan
    cases hm : subseqPositionsAux query.data s.data 0 with
    | some ps =>
      refine List.Pairwise.cons ?_ (ih (i + 1))
      intro b hb
      have := (fuzzyScan_spec query rest (i + 1) b hb).1
      simp only []
      omega
    | none => exact ih (i + 1)

theorem fuzzyFind_index_nodup (query : String) (cands : List String) :
    ((fuzzyFind query cands).map FuzzyMatch.Index).Nodup := by
  have hperm : List.Perm (fuzzyFind query cands) (fuzzyScan query cands 0) :=
    List.perm_insertionSort _ _
  have hmap : List.Perm ((fuzzyFind query cands).map FuzzyMatch.Index)
      ((fuzzyScan query cands 0).map FuzzyMatch.Index) := hperm.map _
  refine hmap.nodup_iff.mpr ?_
  have hpw := fuzzyScan_pairwise query cands 0
  exact List.Pairwise.map _ (fun a b hlt => Nat.ne_of_lt hlt) hpw

theorem fuzzyFind_mem_spec (query : String) (cands : List String) :
    ∀ mt ∈ fuzzyFind query cands,
      mt.Index < cands.length ∧ cands.getD mt.Index "" = mt.Str
      ∧ ∀ p ∈ mt.MatchedIndexes, p < mt.Str.data.length := by
  intro mt hmt
  have hmem : mt ∈ fuzzyScan query cands 0 :=
    (List.perm_insertionSort _ _).mem_iff.mp hmt
  obtain ⟨_, h2, h3, h4⟩ := fuzzyScan_spec query cands 0 mt hmem
  refine ⟨by simpa using h2, by simpa using h3, ?_⟩
  intro p hp
  have := subseqPositionsAux_bounds query.data mt.Str.data 0 mt.MatchedIndexes h4 p hp
  omega

/-- Claim C10: for every query and candidate list, the fuzzy filter's
output is an index-preserving subsequence of its input: the empty query
returns the input unchanged; otherwise the output is exactly the input
elements at the matches' recorded original indices (in match-rank order),
every recorded original index is within bounds and appears at most once,
every match's string is the candidate at its recorded index, and every
reported matched character position is within that candidate's bounds.
Stated for both wrappers (`fuzzyFilterSessions` and `fuzzyFilterRepos`). -/
theorem fuzzyFilter_index_preserving (sessions : List Session) (repos : List Repository)
    (query : String) :
    (query = "" → fuzzyFilterSessions sessions query = sessions
      ∧ fuzzyFilterRepos repos query = repos)
    ∧ (query ≠ "" → fuzzyFilterSessions sessions query =
        (fuzzyFind query (sessions.map Session.Name)).map
          (fun mt => sessions.getD mt.Index default))
    ∧ (query ≠ "" → fuzzyFilterRepos repos query =
        (fuzzyFind query (repos.map (fun r => r.Name ++ " " ++ r.Path))).map
          (fun mt => repos.getD mt.Index default))
    ∧ (∀ mt ∈ fuzzyFind query (sessions.map Session.Name),
        mt.Index < sessions.length
        ∧ (sessions.map Session.Name).getD mt.Index "" = mt.Str
        ∧ ∀ p ∈ mt.MatchedIndexes, p < mt.Str.data.length)
    ∧ (∀ mt ∈ fuzzyFind query (repos.map (fun r => r.Name ++ " " ++ r.Path)),
        mt.Index < repos.length
        ∧ ∀ p ∈ mt.MatchedIndexes, p < mt.Str.data.length)
    ∧ ((fuzzyFind query (sessions.map Session.Name)).map FuzzyMatch.Index).Nodup
    ∧ ((fuzzyFind query (repos.map (fun r => r.Name ++ " " ++ r.Path))).map
        FuzzyMatch.Index).Nodup := by
  refine ⟨?_, ?_, ?_, ?_, ?_, fuzzyFind_index_nodup _ _, fuzzyFind_index_nodup _ _⟩
  · intro h
    simp [fuzzyFilterSessions, fuzzyFilterRepos, h]
  · intro h
    simp [fuzzyFilterSessions, h]
  · intro h
    simp [fuzzyFilterRepos, h]
  · intro mt hmt
    have := fuzzyFind_mem_spec query (sessions.map Session.Name) mt hmt
    simpa using this
  · intro mt hmt
    have := fuzzyFind_mem_spec query (repos.map (fun r => r.Name ++ " " ++ r.Path)) mt hmt
    exact ⟨by simpa using this.1, this.2.2⟩

/-- Witness for `fuzzyFilter_index_preserving`: the empty query is the
identity, and the query `"zz"` against `["alpha","beta"]` with no
subsequence match yields the empty filtered result. -/
theorem fuzzyFilter_index_preserving_witness :
    fuzzyFilterSessions [⟨"alpha", 1, false⟩, ⟨"beta", 1, false⟩] "" =
        [⟨"alpha", 1, false⟩, ⟨"beta", 1, false⟩]
    ∧ fuzzyFilterSessions [⟨"alpha", 1, false⟩, ⟨"beta", 1, false⟩] "zz" = [] := by
  constructor
  · exact ((fuzzyFilter_index_preserving
      [⟨"alpha", 1, false⟩, ⟨"beta", 1, false⟩] [] "").1 rfl).1
  · have h := (fuzzyFilter_index_preserving
      [⟨"alpha", 1, false⟩, ⟨"beta", 1, false⟩] [] "zz").2.1 (by decide)
    rw [h]
    decide

/-! ### `src/internal/git/git.go` — repository scanner (claim C9)

The filesystem is modelled as a tree of named entries; `filepath.Walk`
visits the root and then recurses into a directory's children unless the
callback returned `SkipDir` for it.  (Go walks children in lexical name
order; the claims proved here — depth bound, path dedup, name sort — are
independent of sibling order, so children are walked in list order.)
The walk is instrumented: it also records, for each directory it enters
(reads the children of), the directory's path and its level below the
walk root. -/

inductive FSEntry where
  | dir (name : String) (children : List FSEntry)
  | file (name : String)
deriving Repr

/-- The entry's name, as `os.FileInfo.Name()` reports it. -/
def FSEntry.name : FSEntry → String
  | .dir n _ => n
  | .file n => n

/-- Model of Go `filepath.Dir` for the paths this walk builds: everything
before the last separator (the Go function also runs `Clean`, which is
the identity on the already-clean paths the walk produces). -/
def filepathDir (p : String) : String :=
  let up := (p.data.reverse.dropWhile (fun c => c ≠ '/')).reverse
  let trimmed := (up.reverse.dropWhile (fun c => c = '/')).reverse
  if trimmed = [] then (if up = [] then "." else "/") else String.mk trimmed

/-- State threaded through the walk: the repositories collected so far,
and (instrumentation) the path and level of every directory entered. -/
structure WalkState where
  repos : List Repository
  entered : List (String × Nat)
deriving Repr

/-- The walk callback of `findReposInDirectory` (git.go lines 56-87) for
a directory entry: a `.git` directory records its parent as a repository
and prunes; a hidden directory prunes; a directory whose path is more
than 3 separators below the root prunes; otherwise the walk descends.
Returns the updated repository list and whether `SkipDir` was returned. -/
def dirCheck (rootDir path name : String) (repos : List Repository) :
    List Repository × Bool :=
  if name = ".git" then
    let repoPath := filepathDir path
    (repos ++ [⟨filepathBase repoPath, repoPath⟩], true)
  else if hasPrefixStr name "." = true ∧ name ≠ ".git" then (repos, true)
  else if 3 < countChar '/' (trimPrefixStr path rootDir) then (repos, true)
  else (repos, false)

mutual

/-- `filepath.Walk` on one entry: the callback returns `nil` for files
(git.go line 61); for a directory, `dirCheck` decides between pruning and
descending into the children. -/
def walkEntry (rootDir : String) : String → Nat → FSEntry → WalkState → WalkState
  | _, _, .file _, st => st
  | path, lvl, .dir name children, st =>
    let c := dirCheck rootDir path name st.repos
    if c.2 then { st with repos := c.1 }
    else
      walkChildren rootDir path lvl children
        { repos := c.1, entered := st.entered ++ [(path, lvl)] }

/-- Walk each child of an entered directory, at one level deeper, with
the child's path formed by joining the parent path and the child name. -/
def walkChildren (rootDir path : String) (lvl : Nat) :
    List FSEntry → WalkState → WalkState
  | [], st => st
  | ch :: rest, st =>
    walkChildren rootDir path lvl rest
      (walkEntry rootDir (path ++ "/" ++ ch.name) (lvl + 1) ch st)

end

/-- `git.findReposInDirectory` (git.go lines 53-90): walk the directory
tree rooted at `dir` collecting repositories. -/
def findReposInDirectory (dir : String) (tree : FSEntry) : List Repository :=
  (walkEntry dir dir 0 tree ⟨[], []⟩).repos

/-- The directories entered (children read) by the walk of
`findReposInDirectory`, with their levels below the root. -/
def walkEnteredDirs (dir : String) (tree : FSEntry) : List (String × Nat) :=
  (walkEntry dir dir 0 tree ⟨[], []⟩).entered

/-- `git.expandHome` (git.go lines 92-101): a leading `~/` is replaced by
the home directory (joined as Go `filepath.Join` does for a clean home
path without trailing separator). -/
def expandHome (home path : String) : String :=
  if hasPrefixStr path "~/" = true then home ++ "/" ++ (String.mk (path.data.drop 2))
  else path

/-- The per-repository dedup step of `FindRepositories` (git.go lines
38-43): append the repository unless its path was already seen.  The
`seen` set is exactly the set of paths already in the accumulator. -/
def dedupStep (acc : List Repository) (repo : Repository) : List Repository :=
  if repo.Path ∈ acc.map Repository.Path then acc else acc ++ [repo]

/-- `git.FindRepositories` (git.go lines 19-51): for each configured
directory, skip empty entries, expand the home shorthand, skip
directories that do not exist (`fs` returns `none`), collect that
directory's repositories deduplicating by path across all directories,
and finally sort by repository name ascending.  (Go uses `sort.Slice`
with a strict name comparison; any sort with the same contract yields a
name-ascending permutation, modelled by insertion sort.) -/
def FindRepositories (home : String) (fs : String → Option FSEntry)
    (directories : List String) : List Repository :=
  let repos := directories.foldl
    (fun acc dir =>
      if dir = "" then acc
      else
        let expandedDir := expandHome home dir
        match fs expandedDir with
        | none => acc
        | some tree => (findReposInDirectory expandedDir tree).foldl dedupStep acc)
    []
  List.insertionSort (fun a b => a.Name ≤ b.Name) repos

theorem string_append_data3 (path nm : String) :
    (path ++ "/" ++ nm).data = path.data ++ ('/' :: nm.data) := by
  simp [String.data_append]

theorem depth_join (root path nm : String)
    (h : root.data.isPrefixOf path.data = true) :
    countChar '/' (trimPrefixStr (path ++ "/" ++ nm) root) =
      countChar '/' (trimPrefixStr path root) + 1 + countChar '/' nm := by
  have hpre : root.data <+: path.data := List.isPrefixOf_iff_prefix.mp h
  have hlen : root.data.length ≤ path.data.length := hpre.length_le
  have hfull : root.data.isPrefixOf (path ++ "/" ++ nm).data = true := by
    rw [List.isPrefixOf_iff_prefix, string_append_data3]
    exact hpre.trans (List.prefix_append _ _)
  unfold trimPrefixStr countChar
  rw [if_pos hfull, if_pos h]
  show ((path ++ "/" ++ nm).data.drop root.data.length).count '/' =
    (path.data.drop root.data.length).count '/' + 1 + nm.data.count '/'
  rw [string_append_data3, List.drop_append_of_le_length hlen,
    List.count_append '/' _ _, List.count_cons_self '/' nm.data]
  omega

theorem prefix_join (root path nm : String)
    (h : root.data.isPrefixOf path.data = true) :
    root.data.isPrefixOf (path ++ "/" ++ nm).data = true := by
  rw [List.isPrefixOf_iff_prefix, string_append_data3]
  exact (List.isPrefixOf_iff_prefix.mp h).trans (List.prefix_append _ _)

theorem dirCheck_no_skip {rootDir path name : String} {repos : List Repository}
    (h : (dirCheck rootDir path name repos).2 = false) :
    countChar '/' (trimPrefixStr path rootDir) ≤ 3 := by
  unfold dirCheck at h
  by_cases hgit : name = ".git"
  · rw [if_pos hgit] at h
    simp at h
  · rw [if_neg hgit] at h
    by_cases hhid : hasPrefixStr name "." = true ∧ name ≠ ".git"
    · rw [if_pos hhid] at h
      simp at h
    · rw [if_neg hhid] at h
      by_cases hdep : 3 < countChar '/' (trimPrefixStr path rootDir)
      · rw [if_pos hdep] at h
        simp at h
      · omega

mutual

theorem walkEntry_entered_le (rootDir : String) :
    ∀ (e : FSEntry) (path : String) (lvl : Nat) (st : WalkState),
      rootDir.data.isPrefixOf path.data = true →
      lvl ≤ countChar '/' (trimPrefixStr path rootDir) →
      (∀ q ∈ st.entered, q.2 ≤ 3 ∧ countChar '/' (trimPrefixStr q.1 rootDir) ≤ 3) →
      ∀ q ∈ (walkEntry rootDir path lvl e st).entered,
        q.2 ≤ 3 ∧ countChar '/' (trimPrefixStr q.1 rootDir) ≤ 3
  | .file _, path, lvl, st => by
    intro _ _ hst
    simpa [walkEntry] using hst
  | .dir name children, path, lvl, st => by
    intro hpre hlvl hst
    simp only [walkEntry]
    by_cases hskip : (dirCheck rootDir path name st.repos).2 = true
    · rw [if_pos hskip]
      exact hst
    · rw [if_neg hskip]
      have hdep : countChar '/' (trimPrefixStr path rootDir) ≤ 3 :=
        dirCheck_no_skip (by simpa using hskip)
      refine walkChildren_entered_le rootDir path lvl children _ hpre hlvl ?_
      intro q hq
      rcases List.mem_append.mp hq with hq1 | hq2
      · exact hst q hq1
      · rcases List.mem_singleton.mp hq2 with rfl
        exact ⟨by omega, hdep⟩

theorem walkChildren_entered_le (rootDir : String) :
    ∀ (path : String) (lvl : Nat) (children : List FSEntry) (st : WalkState),
      rootDir.data.isPrefixOf path.data = true →
      lvl ≤ countChar '/' (trimPrefixStr path rootDir) →
      (∀ q ∈ st.entered, q.2 ≤ 3 ∧ countChar '/' (trimPrefixStr q.1 rootDir) ≤ 3) →
      ∀ q ∈ (walkChildren rootDir path lvl children st).entered,
        q.2 ≤ 3 ∧ countChar '/' (trimPrefixStr q.1 rootDir) ≤ 3
  | path, lvl, [], st => by
    intro _ _ hst
    simpa [walkChildren] using hst
  | path, lvl, ch :: rest, st => by
    intro hpre hlvl hst
    simp only [walkChildren]
    refine walkChildren_entered_le rootDir path lvl rest _ hpre hlvl ?_
    refine walkEntry_entered_le rootDir ch (path ++ "/" ++ ch.name) (lvl + 1) st
      (prefix_join rootDir path ch.name hpre) ?_ hst
    rw [depth_join rootDir path ch.name hpre]
    omega

end

theorem walkEnteredDirs_depth (dir : String) (tree : FSEntry) :
    ∀ q ∈ walkEnteredDirs dir tree,
      q.2 ≤ 3 ∧ countChar '/' (trimPrefixStr q.1 dir) ≤ 3 := by
  refine walkEntry_entered_le dir tree dir 0 ⟨[], []⟩ ?_ (Nat.zero_le _) ?_
  · exact List.isPrefixOf_iff_prefix.mpr (List.prefix_refl _)
  · intro q hq
    simp at hq

theorem dedup_fold_nodup (new : List Repository) :
    ∀ acc : List Repository, (acc.map Repository.Path).Nodup →
      ((new.foldl dedupStep acc).map Repository.Path).Nodup := by
  induction new with
  | nil => intro acc h; simpa using h
  | cons r rest ih =>
    intro acc h
    simp only [List.foldl_cons]
    apply ih
    unfold dedupStep
    by_cases hmem : r.Path ∈ acc.map Repository.Path
    · rw [if_pos hmem]
      exact h
    · rw [if_neg hmem]
      rw [List.map_append]
      simp [List.nodup_append, h, hmem]

instance : IsTotal Repository (fun a b => a.Name ≤ b.Name) :=
  ⟨fun a b => le_total a.Name b.Name⟩

instance : IsTrans Repository (fun a b => a.Name ≤ b.Name) :=
  ⟨fun _ _ _ hab hbc => le_trans hab hbc⟩

/-- Claim C9: for every configuration of root directories (and any
filesystem), the repository scan enters no directory more than 3
separator levels below a configured root (both the level counter and the
code's own separator-count formula stay at most 3 for every entered
directory), the returned repository list never contains two entries with
the same path (deduplicated across all input directories), and it is
sorted by repository name ascending. -/
theorem findRepositories_scan_properties (home : String) (fs : String → Option FSEntry)
    (directories : List String) (root : String) (tree : FSEntry) :
    (∀ q ∈ walkEnteredDirs root tree,
        q.2 ≤ 3 ∧ countChar '/' (trimPrefixStr q.1 root) ≤ 3)
    ∧ ((FindRepositories home fs directories).map Repository.Path).Nodup
    ∧ (FindRepositories home fs directories).Pairwise (fun a b => a.Name ≤ b.Name) := by
  refine ⟨walkEnteredDirs_depth root tree, ?_, ?_⟩
  · unfold FindRepositories
    have hfold : ∀ (ds : List String) (acc : List Repository),
        (acc.map Repository.Path).Nodup →
        ((ds.foldl
            (fun acc dir =>
              if dir = "" then acc
              else
                let expandedDir := expandHome home dir
                match fs expandedDir with
                | none => acc
                | some t => (findReposInDirectory expandedDir t).foldl dedupStep acc)
            acc).map Repository.Path).Nodup := by
      intro ds
      induction ds with
      | nil => intro acc h; simpa using h
      | cons d rest ih =>
        intro acc h
        simp only [List.foldl_cons]
        apply ih
        by_cases hd : d = ""
        · rw [if_pos hd]; exact h
        · rw [if_neg hd]
          cases fs (expandHome home d) with
          | none => exact h
          | some t => exact dedup_fold_nodup _ acc h
    have hperm := List.perm_insertionSort
      (fun a b : Repository => a.Name ≤ b.Name)
      (directories.foldl
        (fun acc dir =>
          if dir = "" then acc
          else
            let expandedDir := expandHome home dir
            match fs expandedDir with
            | none => acc
            | some t => (findReposInDirectory expandedDir t).foldl dedupStep acc)
        [])
    exact (hperm.map Repository.Path).nodup_iff.mpr (hfold directories [] (by simp))
  · unfold FindRepositories
    exact List.sorted_insertionSort _ _

/-! ### `src/internal/ui/main.go` — the interaction state machine

The Bubble Tea model is embedded as an explicit state record and a step
function `UIUpdate : Env → MainModel → UIMsg → StepResult`.  A step
returns the next model, the external subprocess calls issued
synchronously while handling the event, and the commands handed back to
the event loop (`tea.Cmd` values).  The Go `map[int]bool` selection set
is represented as the list of indices mapped to true; every code path
builds it as the empty set, a singleton, or a contiguous ascending range,
and the one place that iterates it (Go map iteration order is
unspecified) is modelled as iterating in ascending index order.  The
embedded cursor follows the repository's own guarded `CursorUp` and
`CursorDown` movements; the list widget's paging keys (which can also
move the cursor but touch no other state) are not modelled. -/

/-- `viewState` (main.go lines 19-31). -/
inductive ViewState where
  | sessionListView
  | createModeView
  | repoListView
  | manualCreateView
  | manualDirectoryView
  | templateSelectView
  | renameSessionView
  | loadingView
  | confirmDeleteView
deriving Repr, DecidableEq

/-- Commands the handlers hand back to the event loop. -/
inductive UICmd where
  | loadSessionsCmd
  | loadRepositoriesCmd (directories : List String)
  | quitCmd
deriving Repr, DecidableEq

/-- `MainModel` (main.go lines 43-74), restricted to the fields the
handlers read or write (styles, spinner and window geometry are
display-only). -/
structure MainModel where
  state : ViewState
  sessions : List Session
  filteredSessions : List Session
  repos : List Repository
  filteredRepos : List Repository
  templates : List SessionTemplate
  repoDirectories : List String
  selectedRepo : Option Repository
  selectedSession : Option Session
  selectedSessions : List Nat
  visualMode : Bool
  visualStart : Nat
  cursor : Nat
  itemsLen : Nat
  inputFocused : Bool
  filterQuery : String
  repoFilterQuery : String
  nameInput : String
  pathInput : String
  sessionName : String
  sessionPath : String
  deleteTarget : String
  error : String
  success : String
  quitting : Bool
deriving Repr, DecidableEq

/-- The messages of the event loop (main.go lines 76-79 and the
`tea.KeyMsg`/`tea.WindowSizeMsg`/spinner cases of `Update`). -/
inductive UIMsg where
  | key (k : String)
  | windowSize (w h : Nat)
  | sessionsLoaded (ss : List Session)
  | reposLoaded (rs : List Repository)
  | errorBanner (s : String)
  | successBanner (s : String)
  | spinnerTick
deriving Repr

/-- The result of one dispatched event: next model, external subprocess
calls issued synchronously during handling, and returned commands. -/
structure StepResult where
  model : MainModel
  calls : List ExtCall
  cmds : List UICmd
deriving Repr

/-- Banner clearing on any key event (main.go lines 147-154). -/
def clearBanners (m : MainModel) : MainModel :=
  if m.error ≠ "" ∨ m.success ≠ "" then { m with error := "", success := "" } else m

/-- Modelled from the bubbles list widget: `CursorDown` moves within the
current item count. -/
def cursorDown (m : MainModel) : MainModel :=
  if m.cursor + 1 < m.itemsLen then { m with cursor := m.cursor + 1 } else m

/-- Modelled from the bubbles list widget: `CursorUp`. -/
def cursorUp (m : MainModel) : MainModel :=
  if 0 < m.cursor then { m with cursor := m.cursor - 1 } else m

/-- Modelled from the bubbles text input widget: a printable key appends
to the value, backspace removes the last character, anything else leaves
the value unchanged. -/
def textInputUpdate (value : String) (k : String) : String :=
  if k = "backspace" then String.mk value.data.dropLast
  else if k.data.length = 1 then value ++ k
  else value

/-- `updateSessionList` (main.go lines 806-844): rebuilds the displayed
items from the filtered sessions (display-only except for the item count
the list widget then holds). -/
def updateSessionList (m : MainModel) : MainModel :=
  { m with itemsLen := m.filteredSessions.length }

/-- `updateRepoList` (main.go lines 856-877): also forces the state to
the repository list view. -/
def updateRepoList (m : MainModel) : MainModel :=
  { m with state := .repoListView, itemsLen := m.filteredRepos.length }

/-- `updateCreateModeList` (main.go lines 846-854): two fixed items. -/
def updateCreateModeList (m : MainModel) : MainModel :=
  { m with itemsLen := 2 }

/-- `updateTemplateList` (main.go lines 879-891). -/
def updateTemplateList (m : MainModel) : MainModel :=
  { m with itemsLen := m.templates.length }

/-- `updateVisualSelection` (main.go lines 737-758): clear the previous
selection and select exactly the closed index interval between the fixed
anchor and the current cursor position, clamped to the filtered list. -/
def updateVisualSelection (m : MainModel) : MainModel :=
  let start := m.visualStart
  let current := m.cursor
  let minIdx := if current < start then current else start
  let maxIdx := if current < start then start else current
  let sel := (List.range' minIdx (maxIdx + 1 - minIdx)).filter
    (fun i => i < m.filteredSessions.length)
  { m with selectedSessions := sel }

/-- The attach/switch call of `tmux.AttachToSession` (tmux.go lines
135-148), chosen by the in-multiplexer marker. -/
def attachCall (env : Env) (name : String) : ExtCall :=
  if env.insideTmux then ExtCall.switchClient name else ExtCall.attachSession name

/-- The indices of the selection set that address positions inside the
filtered list (the `idx >= 0 && idx < len` guard of
`deleteSelectedSessions`), in ascending order. -/
def validSelected (m : MainModel) : List Nat :=
  m.selectedSessions.filter (fun idx => idx < m.filteredSessions.length)

/-- Names of the attached sessions in the selection (main.go lines
764-774). -/
def attachedSelectedNames (m : MainModel) : List String :=
  (((validSelected m).map (fun idx => m.filteredSessions.getD idx default)).filter
    (fun s => s.Attached)).map Session.Name

/-- Names of the not-attached sessions in the selection. -/
def notAttachedSelectedNames (m : MainModel) : List String :=
  (((validSelected m).map (fun idx => m.filteredSessions.getD idx default)).filter
    (fun s => !s.Attached)).map Session.Name

/-- `deleteSelectedSessions` (main.go lines 760-804): partition the
selection into attached and not-attached; with any attached session the
whole batch is parked behind one confirmation (target = the attached
names joined by a comma and space) and nothing is killed; otherwise the
not-attached sessions are killed one call each and the refresh command is
returned. -/
def deleteSelectedSessions (env : Env) (m : MainModel) : StepResult :=
  let attachedSessions := attachedSelectedNames m
  let sessionsToDelete := notAttachedSelectedNames m
  if attachedSessions ≠ [] then
    let mc := { m with deleteTarget := joinStr ", " attachedSessions, state := .confirmDeleteView }
    { model := mc, calls := [], cmds := [] }
  else
    let calls := sessionsToDelete.map ExtCall.killSession
    let errors := sessionsToDelete.filter (fun n => !(env.runOk (ExtCall.killSession n)))
    let m2 :=
      if errors ≠ [] then
        { m with error := "Failed to kill sessions: " ++ joinStr ", " errors }
      else
        { m with success := "Killed " ++ natRepr sessionsToDelete.length ++ " sessions" }
    { model := { m2 with visualMode := false, selectedSessions := [] },
      calls := calls, cmds := [UICmd.loadSessionsCmd] }

/-- `handleConfirmDeleteKeys` (main.go lines 611-633): `y`/`Y` kills the
stored target and refreshes; `n`/`N`/`esc`/`q` cancels with no kill; both
return to the session list. -/
def handleConfirmDeleteKeys (env : Env) (m : MainModel) (k : String) : StepResult :=
  if k = "y" ∨ k = "Y" then
    let m2 :=
      if env.runOk (ExtCall.killSession m.deleteTarget) then
        { m with success := "Killed session: " ++ m.deleteTarget }
      else { m with error := "Failed to kill session" }
    { model := { m2 with state := .sessionListView, deleteTarget := "" },
      calls := [ExtCall.killSession m.deleteTarget], cmds := [UICmd.loadSessionsCmd] }
  else if k = "n" ∨ k = "N" ∨ k = "esc" ∨ k = "q" then
    { model := updateSessionList { m with state := .sessionListView, deleteTarget := "" },
      calls := [], cmds := [] }
  else ⟨m, [], []⟩

/-- `handleSessionListKeys` (main.go lines 214-392). -/
def handleSessionListKeys (env : Env) (m : MainModel) (k : String) : StepResult :=
  if m.inputFocused then
    if k = "esc" then
      ⟨updateSessionList { m with inputFocused := false, filterQuery := "", filteredSessions := m.sessions }, [], []⟩
    else if k = "enter" then
      let q := m.nameInput
      ⟨updateSessionList { m with filterQuery := q, filteredSessions := fuzzyFilterSessions m.sessions q, inputFocused := false }, [], []⟩
    else
      let v := textInputUpdate m.nameInput k
      ⟨updateSessionList { m with nameInput := v, filterQuery := v, filteredSessions := fuzzyFilterSessions m.sessions v }, [], []⟩
  else if k = "q" ∨ k = "ctrl+c" then
    if m.visualMode then
      ⟨updateSessionList { m with visualMode := false, selectedSessions := [] }, [], []⟩
    else ⟨{ m with quitting := true }, [], [UICmd.quitCmd]⟩
  else if k = "esc" then
    if m.visualMode then
      ⟨updateSessionList { m with visualMode := false, selectedSessions := [] }, [], []⟩
    else ⟨m, [], []⟩
  else if k = "/" then
    if m.visualMode then ⟨m, [], []⟩
    else ⟨{ m with inputFocused := true, nameInput := m.filterQuery }, [], []⟩
  else if k = "enter" ∨ k = "l" then
    if m.visualMode then ⟨m, [], []⟩
    else if 0 < m.filteredSessions.length ∧ m.cursor < m.filteredSessions.length then
      let s := m.filteredSessions.getD m.cursor default
      if env.runOk (attachCall env s.Name) then
        ⟨{ m with quitting := true }, [attachCall env s.Name], [UICmd.quitCmd]⟩
      else ⟨{ m with error := "Failed to attach" }, [attachCall env s.Name], []⟩
    else ⟨m, [], []⟩
  else if k = "c" ∨ k = "n" then
    if m.visualMode then ⟨m, [], []⟩
    else ⟨updateCreateModeList { m with state := .createModeView }, [], []⟩
  else if k = "r" then
    if ¬m.visualMode ∧ 0 < m.filteredSessions.length
        ∧ m.cursor < m.filteredSessions.length then
      let s := m.filteredSessions.getD m.cursor default
      ⟨{ m with selectedSession := some s, state := .renameSessionView, nameInput := s.Name, inputFocused := false }, [], []⟩
    else ⟨m, [], []⟩
  else if k = "ctrl+v" then
    if m.visualMode then
      ⟨updateSessionList { m with visualMode := false, selectedSessions := [] }, [], []⟩
    else
      let vs := m.cursor
      let sel := if vs < m.filteredSessions.length then [vs] else []
      ⟨updateSessionList { m with visualMode := true, visualStart := vs, selectedSessions := sel }, [], []⟩
  else if k = "j" ∨ k = "down" then
    if m.visualMode then
      if m.cursor + 1 < m.filteredSessions.length then
        ⟨updateSessionList (updateVisualSelection (cursorDown m)), [], []⟩
      else ⟨m, [], []⟩
    else ⟨cursorDown m, [], []⟩
  else if k = "k" ∨ k = "up" then
    if m.visualMode then
      if 1 ≤ m.cursor then
        ⟨updateSessionList (updateVisualSelection (cursorUp m)), [], []⟩
      else ⟨m, [], []⟩
    else ⟨cursorUp m, [], []⟩
  else if k = "d" ∨ k = "x" then
    if m.visualMode then deleteSelectedSessions env m
    else if 0 < m.filteredSessions.length ∧ m.cursor < m.filteredSessions.length then
      let s := m.filteredSessions.getD m.cursor default
      if s.Attached then
        ⟨{ m with deleteTarget := s.Name, state := .confirmDeleteView }, [], []⟩
      else if env.runOk (ExtCall.killSession s.Name) then
        ⟨{ m with success := "Killed session: " ++ s.Name },
          [ExtCall.killSession s.Name], [UICmd.loadSessionsCmd]⟩
      else
        ⟨{ m with error := "Failed to kill session" }, [ExtCall.killSession s.Name], []⟩
    else ⟨m, [], []⟩
  else ⟨m, [], []⟩

/-- `handleCreateModeKeys` (main.go lines 394-421). -/
def handleCreateModeKeys (m : MainModel) (k : String) : StepResult :=
  if k = "esc" ∨ k = "q" ∨ k = "h" then
    ⟨updateSessionList { m with state := .sessionListView }, [], []⟩
  else if k = "enter" ∨ k = "l" then
    if m.cursor = 0 then
      ⟨{ m with state := .loadingView }, [], [UICmd.loadRepositoriesCmd m.repoDirectories]⟩
    else if m.cursor = 1 then
      ⟨{ m with state := .manualCreateView, nameInput := "" }, [], []⟩
    else ⟨m, [], []⟩
  else if k = "j" ∨ k = "down" then ⟨cursorDown m, [], []⟩
  else if k = "k" ∨ k = "up" then ⟨cursorUp m, [], []⟩
  else ⟨m, [], []⟩

/-- `handleRepoListKeys` (main.go lines 423-492). -/
def handleRepoListKeys (m : MainModel) (k : String) : StepResult :=
  if m.inputFocused then
    if k = "esc" then
      ⟨updateRepoList { m with inputFocused := false, repoFilterQuery := "", filteredRepos := m.repos }, [], []⟩
    else if k = "enter" then
      let q := m.nameInput
      ⟨updateRepoList { m with repoFilterQuery := q, filteredRepos := fuzzyFilterRepos m.repos q, inputFocused := false }, [], []⟩
    else
      let v := textInputUpdate m.nameInput k
      ⟨updateRepoList { m with nameInput := v, repoFilterQuery := v, filteredRepos := fuzzyFilterRepos m.repos v }, [], []⟩
  else if k = "esc" ∨ k = "q" then
    ⟨updateSessionList { m with state := .sessionListView }, [], []⟩
  else if k = "/" then
    ⟨{ m with inputFocused := true, nameInput := m.repoFilterQuery }, [], []⟩
  else if k = "enter" ∨ k = "l" then
    if 0 < m.filteredRepos.length ∧ m.cursor < m.filteredRepos.length then
      let r := m.filteredRepos.getD m.cursor default
      ⟨updateTemplateList { m with selectedRepo := some r, state := .templateSelectView }, [], []⟩
    else ⟨m, [], []⟩
  else if k = "j" ∨ k = "down" then ⟨cursorDown m, [], []⟩
  else if k = "k" ∨ k = "up" then ⟨cursorUp m, [], []⟩
  else ⟨m, [], []⟩

/-- `handleManualCreateKeys` (main.go lines 494-514). -/
def handleManualCreateKeys (env : Env) (m : MainModel) (k : String) : StepResult :=
  if k = "esc" then ⟨updateCreateModeList { m with state := .createModeView }, [], []⟩
  else if k = "enter" then
    let name := trimSpaceStr m.nameInput
    if name ≠ "" then
      ⟨{ m with sessionName := name, state := .manualDirectoryView, pathInput := env.defaultPath }, [], []⟩
    else ⟨{ m with nameInput := textInputUpdate m.nameInput k }, [], []⟩
  else ⟨{ m with nameInput := textInputUpdate m.nameInput k }, [], []⟩

/-- `handleManualDirectoryKeys` (main.go lines 516-547). -/
def handleManualDirectoryKeys (env : Env) (m : MainModel) (k : String) : StepResult :=
  if k = "esc" then ⟨{ m with state := .manualCreateView }, [], []⟩
  else if k = "enter" then
    let path := trimSpaceStr m.pathInput
    if path ≠ "" then
      let path2 :=
        if hasPrefixStr path "~/" = true then
          env.homeDir ++ "/" ++ String.mk (path.data.drop 2)
        else path
      if env.statIsDir path2 then
        ⟨updateTemplateList { m with sessionPath := path2, state := .templateSelectView }, [], []⟩
      else ⟨{ m with error := "Directory does not exist: " ++ path2 }, [], []⟩
    else ⟨{ m with pathInput := textInputUpdate m.pathInput k }, [], []⟩
  else ⟨{ m with pathInput := textInputUpdate m.pathInput k }, [], []⟩

/-- `createSession` of the UI (main.go lines 635-660): names the session
from the selected repository (collision-free) or the manual input,
creates it, attaches, and quits on success. -/
def createSessionUI (env : Env) (m : MainModel) (template : SessionTemplate) : StepResult :=
  let sessionName :=
    match m.selectedRepo with
    | some r => GenerateSessionName r.Path m.sessions
    | none => m.sessionName
  let sessionPath :=
    match m.selectedRepo with
    | some r => r.Path
    | none => m.sessionPath
  let created := CreateSession env sessionName sessionPath template
  match created.1 with
  | some e => ⟨{ m with error := "Failed to create session: " ++ e }, created.2, []⟩
  | none =>
    if env.runOk (attachCall env sessionName) then
      ⟨{ m with quitting := true }, created.2 ++ [attachCall env sessionName],
        [UICmd.quitCmd]⟩
    else
      ⟨{ m with error := "Failed to attach to session" },
        created.2 ++ [attachCall env sessionName], []⟩

/-- `handleTemplateSelectKeys` (main.go lines 549-578). -/
def handleTemplateSelectKeys (env : Env) (m : MainModel) (k : String) : StepResult :=
  if k = "esc" ∨ k = "q" ∨ k = "h" then
    match m.selectedRepo with
    | some _ => ⟨updateRepoList { m with state := .repoListView }, [], []⟩
    | none => ⟨{ m with state := .manualDirectoryView }, [], []⟩
  else if k = "enter" ∨ k = "l" then
    if 0 < m.templates.length ∧ m.cursor < m.templates.length then
      createSessionUI env m (m.templates.getD m.cursor default)
    else ⟨m, [], []⟩
  else if k = "j" ∨ k = "down" then ⟨cursorDown m, [], []⟩
  else if k = "k" ∨ k = "up" then ⟨cursorUp m, [], []⟩
  else ⟨m, [], []⟩

/-- `handleRenameSessionKeys` (main.go lines 580-609). -/
def handleRenameSessionKeys (env : Env) (m : MainModel) (k : String) : StepResult :=
  if k = "esc" then ⟨updateSessionList { m with state := .sessionListView }, [], []⟩
  else if k = "enter" then
    let newName := trimSpaceStr m.nameInput
    let oldName := (m.selectedSession.getD default).Name
    if newName ≠ "" ∧ newName ≠ oldName then
      if env.runOk (ExtCall.renameSession oldName newName) then
        ⟨{ m with success := "Renamed session to: " ++ newName, state := .sessionListView },
          [ExtCall.renameSession oldName newName], [UICmd.loadSessionsCmd]⟩
      else
        ⟨{ m with error := "Failed to rename session", nameInput := textInputUpdate m.nameInput k },
          [ExtCall.renameSession oldName newName], []⟩
    else ⟨updateSessionList { m with state := .sessionListView }, [], []⟩
  else ⟨{ m with nameInput := textInputUpdate m.nameInput k }, [], []⟩

/-- `Update` (main.go lines 144-212): clear transient banners on key
events, dispatch key events to the active view's handler (the loading
view has no handler), and apply the background-task result messages. -/
def UIUpdate (env : Env) (m : MainModel) (msg : UIMsg) : StepResult :=
  match msg with
  | .key k =>
    let m2 := clearBanners m
    if m2.quitting then ⟨m2, [], [UICmd.quitCmd]⟩
    else
      match m2.state with
      | .sessionListView => handleSessionListKeys env m2 k
      | .createModeView => handleCreateModeKeys m2 k
      | .repoListView => handleRepoListKeys m2 k
      | .manualCreateView => handleManualCreateKeys env m2 k
      | .manualDirectoryView => handleManualDirectoryKeys env m2 k
      | .templateSelectView => handleTemplateSelectKeys env m2 k
      | .renameSessionView => handleRenameSessionKeys env m2 k
      | .confirmDeleteView => handleConfirmDeleteKeys env m2 k
      | .loadingView => ⟨m2, [], []⟩
  | .sessionsLoaded ss =>
    ⟨updateSessionList { m with sessions := ss, filteredSessions := ss }, [], []⟩
  | .reposLoaded rs =>
    ⟨updateRepoList { m with repos := rs, filteredRepos := rs }, [], []⟩
  | .errorBanner s => ⟨{ m with error := s }, [], []⟩
  | .successBanner s => ⟨{ m with success := s }, [], []⟩
  | .windowSize _ _ => ⟨m, [], []⟩
  | .spinnerTick => ⟨m, [], []⟩

/-- `NewMainModel` (main.go lines 81-117), restricted to the tracked
fields. -/
def NewMainModel (templates : List SessionTemplate)
    (repoDirectories : List String) : MainModel :=
  { state := .sessionListView, sessions := [], filteredSessions := [],
    repos := [], filteredRepos := [], templates := templates,
    repoDirectories := repoDirectories, selectedRepo := none,
    selectedSession := none, selectedSessions := [], visualMode := false,
    visualStart := 0, cursor := 0, itemsLen := 0, inputFocused := false,
    filterQuery := "", repoFilterQuery := "", nameInput := "", pathInput := "",
    sessionName := "", sessionPath := "", deleteTarget := "", error := "",
    success := "", quitting := false }

/-- Run a sequence of events, accumulating the external calls issued. -/
def runTrace (env : Env) (m : MainModel) : List UIMsg → MainModel × List ExtCall
  | [] => (m, [])
  | msg :: rest =>
    let r := UIUpdate env m msg
    let rec2 := runTrace env r.model rest
    (rec2.1, r.calls ++ rec2.2)

/-! Field-preservation lemmas for the state helpers. -/

@[simp] theorem clearBanners_state (m : MainModel) : (clearBanners m).state = m.state := by
  unfold clearBanners; split <;> rfl

@[simp] theorem clearBanners_sessions (m : MainModel) :
    (clearBanners m).sessions = m.sessions := by
  unfold clearBanners; split <;> rfl

@[simp] theorem clearBanners_filteredSessions (m : MainModel) :
    (clearBanners m).filteredSessions = m.filteredSessions := by
  unfold clearBanners; split <;> rfl

@[simp] theorem clearBanners_selectedSessions (m : MainModel) :
    (clearBanners m).selectedSessions = m.selectedSessions := by
  unfold clearBanners; split <;> rfl

@[simp] theorem clearBanners_visualMode (m : MainModel) :
    (clearBanners m).visualMode = m.visualMode := by
  unfold clearBanners; split <;> rfl

@[simp] theorem clearBanners_visualStart (m : MainModel) :
    (clearBanners m).visualStart = m.visualStart := by
  unfold clearBanners; split <;> rfl

@[simp] theorem clearBanners_cursor (m : MainModel) : (clearBanners m).cursor = m.cursor := by
  unfold clearBanners; split <;> rfl

@[simp] theorem clearBanners_itemsLen (m : MainModel) :
    (clearBanners m).itemsLen = m.itemsLen := by
  unfold clearBanners; split <;> rfl

@[simp] theorem clearBanners_inputFocused (m : MainModel) :
    (clearBanners m).inputFocused = m.inputFocused := by
  unfold clearBanners; split <;> rfl

@[simp] theorem clearBanners_nameInput (m : MainModel) :
    (clearBanners m).nameInput = m.nameInput := by
  unfold clearBanners; split <;> rfl

@[simp] theorem clearBanners_filterQuery (m : MainModel) :
    (clearBanners m).filterQuery = m.filterQuery := by
  unfold clearBanners; split <;> rfl

@[simp] theorem clearBanners_deleteTarget (m : MainModel) :
    (clearBanners m).deleteTarget = m.deleteTarget := by
  unfold clearBanners; split <;> rfl

@[simp] theorem clearBanners_quitting (m : MainModel) :
    (clearBanners m).quitting = m.quitting := by
  unfold clearBanners; split <;> rfl

@[simp] theorem cursorDown_state (m : MainModel) : (cursorDown m).state = m.state := by
  unfold cursorDown; split <;> rfl

@[simp] theorem cursorDown_inputFocused (m : MainModel) :
    (cursorDown m).inputFocused = m.inputFocused := by
  unfold cursorDown; split <;> rfl

@[simp] theorem cursorDown_visualMode (m : MainModel) :
    (cursorDown m).visualMode = m.visualMode := by
  unfold cursorDown; split <;> rfl

@[simp] theorem cursorDown_visualStart (m : MainModel) :
    (cursorDown m).visualStart = m.visualStart := by
  unfold cursorDown; split <;> rfl

@[simp] theorem cursorDown_filteredSessions (m : MainModel) :
    (cursorDown m).filteredSessions = m.filteredSessions := by
  unfold cursorDown; split <;> rfl

@[simp] theorem cursorDown_selectedSessions (m : MainModel) :
    (cursorDown m).selectedSessions = m.selectedSessions := by
  unfold cursorDown; split <;> rfl

@[simp] theorem cursorUp_state (m : MainModel) : (cursorUp m).state = m.state := by
  unfold cursorUp; split <;> rfl

@[simp] theorem cursorUp_inputFocused (m : MainModel) :
    (cursorUp m).inputFocused = m.inputFocused := by
  unfold cursorUp; split <;> rfl

@[simp] theorem cursorUp_visualMode (m : MainModel) :
    (cursorUp m).visualMode = m.visualMode := by
  unfold cursorUp; split <;> rfl

@[simp] theorem cursorUp_visualStart (m : MainModel) :
    (cursorUp m).visualStart = m.visualStart := by
  unfold cursorUp; split <;> rfl

@[simp] theorem cursorUp_filteredSessions (m : MainModel) :
    (cursorUp m).filteredSessions = m.filteredSessions := by
  unfold cursorUp; split <;> rfl

@[simp] theorem cursorUp_selectedSessions (m : MainModel) :
    (cursorUp m).selectedSessions = m.selectedSessions := by
  unfold cursorUp; split <;> rfl

@[simp] theorem updateSessionList_state (m : MainModel) :
    (updateSessionList m).state = m.state := rfl

@[simp] theorem updateSessionList_inputFocused (m : MainModel) :
    (updateSessionList m).inputFocused = m.inputFocused := rfl

@[simp] theorem updateSessionList_visualMode (m : MainModel) :
    (updateSessionList m).visualMode = m.visualMode := rfl

@[simp] theorem updateSessionList_visualStart (m : MainModel) :
    (updateSessionList m).visualStart = m.visualStart := rfl

@[simp] theorem updateSessionList_filteredSessions (m : MainModel) :
    (updateSessionList m).filteredSessions = m.filteredSessions := rfl

@[simp] theorem updateSessionList_selectedSessions (m : MainModel) :
    (updateSessionList m).selectedSessions = m.selectedSessions := rfl

@[simp] theorem updateSessionList_cursor (m : MainModel) :
    (updateSessionList m).cursor = m.cursor := rfl

@[simp] theorem updateSessionList_sessions (m : MainModel) :
    (updateSessionList m).sessions = m.sessions := rfl

@[simp] theorem updateSessionList_deleteTarget (m : MainModel) :
    (updateSessionList m).deleteTarget = m.deleteTarget := rfl

@[simp] theorem updateSessionList_quitting (m : MainModel) :
    (updateSessionList m).quitting = m.quitting := rfl

@[simp] theorem updateVisualSelection_state (m : MainModel) :
    (updateVisualSelection m).state = m.state := rfl

@[simp] theorem updateVisualSelection_inputFocused (m : MainModel) :
    (updateVisualSelection m).inputFocused = m.inputFocused := rfl

@[simp] theorem updateVisualSelection_visualMode (m : MainModel) :
    (updateVisualSelection m).visualMode = m.visualMode := rfl

@[simp] theorem updateVisualSelection_visualStart (m : MainModel) :
    (updateVisualSelection m).visualStart = m.visualStart := rfl

@[simp] theorem updateVisualSelection_filteredSessions (m : MainModel) :
    (updateVisualSelection m).filteredSessions = m.filteredSessions := rfl

@[simp] theorem updateVisualSelection_cursor (m : MainModel) :
    (updateVisualSelection m).cursor = m.cursor := rfl

@[simp] theorem updateRepoList_selectedSessions (m : MainModel) :
    (updateRepoList m).selectedSessions = m.selectedSessions := rfl

@[simp] theorem updateRepoList_visualMode (m : MainModel) :
    (updateRepoList m).visualMode = m.visualMode := rfl

@[simp] theorem updateRepoList_inputFocused (m : MainModel) :
    (updateRepoList m).inputFocused = m.inputFocused := rfl

@[simp] theorem updateRepoList_visualStart (m : MainModel) :
    (updateRepoList m).visualStart = m.visualStart := rfl

@[simp] theorem updateCreateModeList_selectedSessions (m : MainModel) :
    (updateCreateModeList m).selectedSessions = m.selectedSessions := rfl

@[simp] theorem updateCreateModeList_visualMode (m : MainModel) :
    (updateCreateModeList m).visualMode = m.visualMode := rfl

@[simp] theorem updateCreateModeList_inputFocused (m : MainModel) :
    (updateCreateModeList m).inputFocused = m.inputFocused := rfl

@[simp] theorem updateCreateModeList_visualStart (m : MainModel) :
    (updateCreateModeList m).visualStart = m.visualStart := rfl

@[simp] theorem updateTemplateList_selectedSessions (m : MainModel) :
    (updateTemplateList m).selectedSessions = m.selectedSessions := rfl

@[simp] theorem updateTemplateList_visualMode (m : MainModel) :
    (updateTemplateList m).visualMode = m.visualMode := rfl

@[simp] theorem updateTemplateList_inputFocused (m : MainModel) :
    (updateTemplateList m).inputFocused = m.inputFocused := rfl

@[simp] theorem updateTemplateList_visualStart (m : MainModel) :
    (updateTemplateList m).visualStart = m.visualStart := rfl

/-! ### Claim C3 — visual-mode selection is the anchor-to-cursor interval -/

/-- The selection `updateVisualSelection` computes: the indices from
`min anchor current` to `max anchor current` that are inside the list. -/
def visualRange (anchor current len : Nat) : List Nat :=
  let lo := if current < anchor then current else anchor
  let hi := if current < anchor then anchor else current
  (List.range' lo (hi + 1 - lo)).filter (fun i => i < len)

theorem updateVisualSelection_selected (m : MainModel) :
    (updateVisualSelection m).selectedSessions =
      visualRange m.visualStart m.cursor m.filteredSessions.length := rfl

theorem mem_range'_iff (s n x : Nat) : x ∈ List.range' s n ↔ s ≤ x ∧ x < s + n := by
  rw [List.mem_range']
  constructor
  · rintro ⟨i, hi, rfl⟩
    omega
  · intro h
    exact ⟨x - s, by omega, by omega⟩

/-- Membership in `visualRange` is exactly membership in the closed
interval between the anchor and the cursor, clamped to the list. -/
theorem visualRange_mem (anchor current len i : Nat) :
    i ∈ visualRange anchor current len ↔
      (min anchor current ≤ i ∧ i ≤ max anchor current ∧ i < len) := by
  unfold visualRange
  rw [List.mem_filter]
  rw [mem_range'_iff]
  by_cases h : current < anchor
  · rw [if_pos h, if_pos h]
    simp only [decide_eq_true_eq]
    omega
  · rw [if_neg h, if_neg h]
    simp only [decide_eq_true_eq]
    omega

/-- One visual-mode cursor-move step preserves the visual-selection
invariant: after the step the selection is again exactly the interval
between the unchanged anchor and the (possibly moved) cursor. -/
theorem visual_move_step (env : Env) (m : MainModel) (k : String)
    (hstate : m.state = .sessionListView) (hfocus : m.inputFocused = false)
    (hvis : m.visualMode = true)
    (hsel : m.selectedSessions =
      visualRange m.visualStart m.cursor m.filteredSessions.length)
    (hk : k = "j" ∨ k = "k" ∨ k = "down" ∨ k = "up") :
    (UIUpdate env m (.key k)).model.state = .sessionListView
    ∧ (UIUpdate env m (.key k)).model.inputFocused = false
    ∧ (UIUpdate env m (.key k)).model.visualMode = true
    ∧ (UIUpdate env m (.key k)).model.visualStart = m.visualStart
    ∧ (UIUpdate env m (.key k)).model.filteredSessions = m.filteredSessions
    ∧ (UIUpdate env m (.key k)).model.selectedSessions =
        visualRange m.visualStart (UIUpdate env m (.key k)).model.cursor
          m.filteredSessions.length := by
  unfold UIUpdate
  by_cases hq : (clearBanners m).quitting = true
  · simp only [hq, if_true]
    simp [hstate, hfocus, hvis, hsel]
  · simp only [hq]
    rw [if_neg (by decide)]
    rw [clearBanners_state, hstate]
    generalize hm2 : clearBanners m = m2
    have h2state : m2.state = ViewState.sessionListView := by rw [← hm2]; simp [hstate]
    have h2focus : m2.inputFocused = false := by rw [← hm2]; simp [hfocus]
    have h2vis : m2.visualMode = true := by rw [← hm2]; simp [hvis]
    have h2vs : m2.visualStart = m.visualStart := by rw [← hm2]; simp
    have h2cur : m2.cursor = m.cursor := by rw [← hm2]; simp
    have h2fs : m2.filteredSessions = m.filteredSessions := by rw [← hm2]; simp
    have h2sel : m2.selectedSessions =
        visualRange m.visualStart m.cursor m.filteredSessions.length := by
      rw [← hm2]; simp [hsel]
    unfold handleSessionListKeys
    rw [h2focus]
    rcases hk with rfl | rfl | rfl | rfl
    · by_cases hmv : m.cursor + 1 < m.filteredSessions.length
      · simp [h2vis, hmv, updateVisualSelection_selected, h2state, h2focus, h2vs, h2fs, h2cur]
      · simp [h2vis, hmv, h2state, h2focus, h2vs, h2fs, h2sel, h2cur]
    · by_cases hmv : 1 ≤ m.cursor
      · simp [h2vis, hmv, updateVisualSelection_selected, h2state, h2focus, h2vs, h2fs, h2cur]
      · simp [h2vis, hmv, h2state, h2focus, h2vs, h2fs, h2sel, h2cur]
    · by_cases hmv : m.cursor + 1 < m.filteredSessions.length
      · simp [h2vis, hmv, updateVisualSelection_selected, h2state, h2focus, h2vs, h2fs, h2cur]
      · simp [h2vis, hmv, h2state, h2focus, h2vs, h2fs, h2sel, h2cur]
    · by_cases hmv : 1 ≤ m.cursor
      · simp [h2vis, hmv, updateVisualSelection_selected, h2state, h2focus, h2vs, h2fs, h2cur]
      · simp [h2vis, hmv, h2state, h2focus, h2vs, h2fs, h2sel, h2cur]

/-- Claim C3: in visual mode, after any sequence of cursor moves
(`j`/`k`/`down`/`up`), the selection set equals exactly the closed index
interval between the fixed anchor and the final cursor position, clamped
to the filtered list's bounds, regardless of the intermediate cursor
positions visited: the anchor is unchanged by every move and the
selection is recomputed from it each move (it depends only on the final
cursor, not on the set of visited rows). -/
theorem visual_selection_interval (env : Env) (m : MainModel) (moves : List String)
    (hstate : m.state = .sessionListView) (hfocus : m.inputFocused = false)
    (hvis : m.visualMode = true)
    (hsel : m.selectedSessions =
      visualRange m.visualStart m.cursor m.filteredSessions.length)
    (hmoves : ∀ k ∈ moves, k = "j" ∨ k = "k" ∨ k = "down" ∨ k = "up") :
    (runTrace env m (moves.map UIMsg.key)).1.visualMode = true
    ∧ (runTrace env m (moves.map UIMsg.key)).1.visualStart = m.visualStart
    ∧ (runTrace env m (moves.map UIMsg.key)).1.filteredSessions = m.filteredSessions
    ∧ (runTrace env m (moves.map UIMsg.key)).1.selectedSessions =
        visualRange m.visualStart (runTrace env m (moves.map UIMsg.key)).1.cursor
          m.filteredSessions.length
    ∧ ∀ i, i ∈ (runTrace env m (moves.map UIMsg.key)).1.selectedSessions ↔
        (min m.visualStart (runTrace env m (moves.map UIMsg.key)).1.cursor ≤ i
          ∧ i ≤ max m.visualStart (runTrace env m (moves.map UIMsg.key)).1.cursor
          ∧ i < m.filteredSessions.length) := by
  induction moves generalizing m with
  | nil =>
    refine ⟨hvis, rfl, rfl, hsel, ?_⟩
    intro i
    have hnil : (runTrace env m (List.map UIMsg.key [])).1 = m := rfl
    rw [hnil, hsel]
    exact visualRange_mem _ _ _ i
  | cons k rest ih =>
    have hk := hmoves k (List.mem_cons_self k rest)
    obtain ⟨s1, s2, s3, s4, s5, s6⟩ :=
      visual_move_step env m k hstate hfocus hvis hsel hk
    have hsel2 : (UIUpdate env m (.key k)).model.selectedSessions =
        visualRange (UIUpdate env m (.key k)).model.visualStart
          (UIUpdate env m (.key k)).model.cursor
          (UIUpdate env m (.key k)).model.filteredSessions.length := by
      rw [s4, s5]
      exact s6
    have hrest : ∀ k2 ∈ rest, k2 = "j" ∨ k2 = "k" ∨ k2 = "down" ∨ k2 = "up" :=
      fun k2 hk2 => hmoves k2 (List.mem_cons_of_mem _ hk2)
    obtain ⟨t1, t2, t3, t4, t5⟩ := ih (UIUpdate env m (.key k)).model s1 s2 s3 hsel2 hrest
    simp only [List.map_cons, runTrace]
    refine ⟨t1, ?_, ?_, ?_, ?_⟩
    · rw [t2, s4]
    · rw [t3, s5]
    · rw [t4, s4, s5]
    · intro i
      have t5i := t5 i
      rw [s4, s5] at t5i
      exact t5i

/-- A fixed environment where every external call succeeds. -/
def sampleEnv : Env := ⟨fun _ => true, fun _ => true, "", "", false⟩

/-- Six sessions; only `s5` is attached. -/
def sampleSessions : List Session :=
  [⟨"s0", 1, false⟩, ⟨"s1", 1, false⟩, ⟨"s2", 1, false⟩,
   ⟨"s3", 1, false⟩, ⟨"s4", 1, false⟩, ⟨"s5", 1, true⟩]

/-- A session-list model in visual mode with the anchor (and cursor) at
index 2, as produced by entering visual mode there. -/
def visualModel : MainModel :=
  { NewMainModel [] [] with sessions := sampleSessions, filteredSessions := sampleSessions, itemsLen := 6, visualMode := true, visualStart := 2, cursor := 2, selectedSessions := [2] }

/-- Witness for `visual_selection_interval`: moving from anchor index 2
down to index 5 selects exactly indices 2, 3, 4, 5. -/
theorem visual_selection_interval_witness :
    (runTrace sampleEnv visualModel
      (List.map UIMsg.key ["j", "j", "j"])).1.selectedSessions = [2, 3, 4, 5] := by
  have h := visual_selection_interval sampleEnv visualModel ["j", "j", "j"]
    (by decide) (by decide) (by decide) (by decide) (by decide)
  obtain ⟨_, _, _, h4, _⟩ := h
  rw [h4]
  decide

/-! ### Claim C4 — deleting an attached session requires confirmation -/

@[simp] theorem attachedSelectedNames_clearBanners (m : MainModel) :
    attachedSelectedNames (clearBanners m) = attachedSelectedNames m := by
  unfold attachedSelectedNames validSelected
  simp

/-- One step: `d`/`x` on a non-visual session list whose cursor session
is attached parks the delete behind the confirm view with no call. -/
theorem step_single_attached (env : Env) (m : MainModel) (k : String)
    (hstate : m.state = .sessionListView) (hfocus : m.inputFocused = false)
    (hvis : m.visualMode = false) (hq : m.quitting = false)
    (hcur : m.cursor < m.filteredSessions.length)
    (hatt : (m.filteredSessions.getD m.cursor default).Attached = true)
    (hk : k = "d" ∨ k = "x") :
    (UIUpdate env m (.key k)).model.state = .confirmDeleteView
    ∧ (UIUpdate env m (.key k)).model.deleteTarget =
        (m.filteredSessions.getD m.cursor default).Name
    ∧ (UIUpdate env m (.key k)).model.quitting = false
    ∧ (UIUpdate env m (.key k)).calls = []
    ∧ (UIUpdate env m (.key k)).cmds = [] := by
  have hlen0 : 0 < m.filteredSessions.length := by omega
  have hq2 : (clearBanners m).quitting = false := by rw [clearBanners_quitting]; exact hq
  unfold UIUpdate
  simp only [hq2]
  rw [if_neg (by decide)]
  rw [clearBanners_state, hstate]
  unfold handleSessionListKeys
  rw [clearBanners_inputFocused, hfocus]
  have hatt2 : m.filteredSessions[m.cursor].Attached = true := by
    rw [← List.getD_eq_getElem m.filteredSessions default hcur]
    exact hatt
  have hname2 : (m.filteredSessions.getD m.cursor default).Name =
      m.filteredSessions[m.cursor].Name := by
    rw [List.getD_eq_getElem m.filteredSessions default hcur]
  rcases hk with rfl | rfl
  all_goals
    simp [clearBanners_visualMode, hvis, clearBanners_filteredSessions,
      clearBanners_cursor, hcur, hlen0, hatt2, hname2, hq]

/-- One step: `d`/`x` in visual mode with at least one attached selected
session parks the whole batch behind the confirm view, with the target
set to the attached names joined by a comma and space, and no call. -/
theorem step_batch_attached (env : Env) (m : MainModel) (k : String)
    (hstate : m.state = .sessionListView) (hfocus : m.inputFocused = false)
    (hvis : m.visualMode = true) (hq : m.quitting = false)
    (hbatch : attachedSelectedNames m ≠ []) (hk : k = "d" ∨ k = "x") :
    (UIUpdate env m (.key k)).model.state = .confirmDeleteView
    ∧ (UIUpdate env m (.key k)).model.deleteTarget =
        joinStr ", " (attachedSelectedNames m)
    ∧ (UIUpdate env m (.key k)).model.quitting = false
    ∧ (UIUpdate env m (.key k)).calls = []
    ∧ (UIUpdate env m (.key k)).cmds = [] := by
  have hq2 : (clearBanners m).quitting = false := by rw [clearBanners_quitting]; exact hq
  unfold UIUpdate
  simp only [hq2]
  rw [if_neg (by decide)]
  rw [clearBanners_state, hstate]
  unfold handleSessionListKeys
  rw [clearBanners_inputFocused, hfocus]
  unfold deleteSelectedSessions
  rcases hk with rfl | rfl
  all_goals
    simp [clearBanners_visualMode, hvis, hbatch, hq]

/-- One step: `y`/`Y` in the confirm view issues exactly one kill of the
stored target and returns to the session list. -/
theorem step_confirm_yes (env : Env) (m : MainModel) (k : String)
    (hstate : m.state = .confirmDeleteView) (hq : m.quitting = false)
    (hk : k = "y" ∨ k = "Y") :
    (UIUpdate env m (.key k)).calls = [ExtCall.killSession m.deleteTarget]
    ∧ (UIUpdate env m (.key k)).model.state = .sessionListView
    ∧ (UIUpdate env m (.key k)).model.deleteTarget = ""
    ∧ (UIUpdate env m (.key k)).cmds = [UICmd.loadSessionsCmd] := by
  have hq2 : (clearBanners m).quitting = false := by rw [clearBanners_quitting]; exact hq
  unfold UIUpdate
  simp only [hq2]
  rw [if_neg (by decide)]
  rw [clearBanners_state, hstate]
  unfold handleConfirmDeleteKeys
  rcases hk with rfl | rfl
  all_goals
    simp [clearBanners_deleteTarget]

/-- One step: `n`/`N`/`esc`/`q` in the confirm view cancels: no call,
back to the session list, target cleared. -/
theorem step_confirm_cancel (env : Env) (m : MainModel) (k : String)
    (hstate : m.state = .confirmDeleteView) (hq : m.quitting = false)
    (hk : k = "n" ∨ k = "N" ∨ k = "esc" ∨ k = "q") :
    (UIUpdate env m (.key k)).calls = []
    ∧ (UIUpdate env m (.key k)).model.state = .sessionListView
    ∧ (UIUpdate env m (.key k)).model.deleteTarget = "" := by
  have hq2 : (clearBanners m).quitting = false := by rw [clearBanners_quitting]; exact hq
  unfold UIUpdate
  simp only [hq2]
  rw [if_neg (by decide)]
  rw [clearBanners_state, hstate]
  unfold handleConfirmDeleteKeys
  rcases hk with rfl | rfl | rfl | rfl
  all_goals
    simp [clearBanners_deleteTarget]

/-- A session refresh event issues no external call. -/
theorem step_sessionsLoaded_calls (env : Env) (m : MainModel) (ss : List Session) :
    (UIUpdate env m (.sessionsLoaded ss)).calls = [] := rfl

/-- Claim C4: a delete request (`d`/`x`) in the session-list view whose
target is attached — the single session under the cursor, or a
visual-mode batch containing at least one attached session — moves the
machine to the confirm-delete view and issues no external call; a kill
call for the stored target is issued exactly on confirmation (`y`/`Y`),
and cancelling (`n`/`N`/`esc`/`q`) returns to the session list with no
kill issued. -/
theorem delete_attached_confirmation (env : Env) (m : MainModel) (k : String) :
    (m.state = .sessionListView → m.inputFocused = false → m.visualMode = false →
      m.quitting = false → m.cursor < m.filteredSessions.length →
      (m.filteredSessions.getD m.cursor default).Attached = true →
      (k = "d" ∨ k = "x") →
      (UIUpdate env m (.key k)).model.state = .confirmDeleteView
      ∧ (UIUpdate env m (.key k)).model.deleteTarget =
          (m.filteredSessions.getD m.cursor default).Name
      ∧ (UIUpdate env m (.key k)).calls = []
      ∧ (UIUpdate env m (.key k)).cmds = [])
    ∧ (m.state = .sessionListView → m.inputFocused = false → m.visualMode = true →
      m.quitting = false → attachedSelectedNames m ≠ [] →
      (k = "d" ∨ k = "x") →
      (UIUpdate env m (.key k)).model.state = .confirmDeleteView
      ∧ (UIUpdate env m (.key k)).model.deleteTarget =
          joinStr ", " (attachedSelectedNames m)
      ∧ (UIUpdate env m (.key k)).calls = [])
    ∧ (m.state = .confirmDeleteView → m.quitting = false → (k = "y" ∨ k = "Y") →
      (UIUpdate env m (.key k)).calls = [ExtCall.killSession m.deleteTarget]
      ∧ (UIUpdate env m (.key k)).model.state = .sessionListView)
    ∧ (m.state = .confirmDeleteView → m.quitting = false →
      (k = "n" ∨ k = "N" ∨ k = "esc" ∨ k = "q") →
      (UIUpdate env m (.key k)).calls = []
      ∧ (UIUpdate env m (.key k)).model.state = .sessionListView
      ∧ (UIUpdate env m (.key k)).model.deleteTarget = "") := by
  refine ⟨?_, ?_, ?_, ?_⟩
  · intro hstate hfocus hvis hq hcur hatt hk
    obtain ⟨h1, h2, _, h4, h5⟩ :=
      step_single_attached env m k hstate hfocus hvis hq hcur hatt hk
    exact ⟨h1, h2, h4, h5⟩
  · intro hstate hfocus hvis hq hbatch hk
    obtain ⟨h1, h2, _, h4, _⟩ :=
      step_batch_attached env m k hstate hfocus hvis hq hbatch hk
    exact ⟨h1, h2, h4⟩
  · intro hstate hq hk
    obtain ⟨h1, h2, _, _⟩ := step_confirm_yes env m k hstate hq hk
    exact ⟨h1, h2⟩
  · intro hstate hq hk
    exact step_confirm_cancel env m k hstate hq hk

/-- A session-list model with the cursor on the attached session `s5`. -/
def attachedModel : MainModel :=
  { NewMainModel [] [] with sessions := sampleSessions, filteredSessions := sampleSessions, itemsLen := 6, cursor := 5 }

/-- Witness for `delete_attached_confirmation`: pressing `d` on the
attached session issues no call and enters the confirm view; pressing
`y` there issues exactly the kill of that session. -/
theorem delete_attached_confirmation_witness :
    (UIUpdate sampleEnv attachedModel (UIMsg.key "d")).calls = []
    ∧ (UIUpdate sampleEnv attachedModel (UIMsg.key "d")).model.state =
        ViewState.confirmDeleteView
    ∧ (UIUpdate sampleEnv (UIUpdate sampleEnv attachedModel (UIMsg.key "d")).model
        (UIMsg.key "y")).calls = [ExtCall.killSession "s5"] := by
  have h1 := (delete_attached_confirmation sampleEnv attachedModel "d").1
    (by decide) (by decide) (by decide) (by decide) (by decide) (by decide) (Or.inl rfl)
  refine ⟨h1.2.2.1, h1.1, ?_⟩
  have h2 := ((delete_attached_confirmation sampleEnv
      (UIUpdate sampleEnv attachedModel (UIMsg.key "d")).model "y").2.2.1
    (by decide) (by decide) (Or.inl rfl)).1
  rw [h2]
  decide

/-! ### Claim C5 — a confirmed batch delete issues one combined kill -/

/-- Claim C5 (implicit): when a visual-mode batch delete selects at least
one attached session and the user then confirms with `y`, the whole
interaction issues exactly one external kill invocation, whose target
argument is the comma-and-space concatenation of all attached selected
session names (a single string, not one call per session); the
not-attached sessions of the batch are killed neither before the
confirmation (the `d` step issues no call), nor by it (the `y` step's
trace is exactly the one combined call), nor by the refresh that
follows (the sessions-loaded event issues no call). -/
theorem batch_delete_single_combined_kill (env : Env) (m : MainModel)
    (hstate : m.state = .sessionListView) (hfocus : m.inputFocused = false)
    (hvis : m.visualMode = true) (hq : m.quitting = false)
    (hbatch : attachedSelectedNames m ≠ []) :
    (UIUpdate env m (.key "d")).calls = []
    ∧ (UIUpdate env (UIUpdate env m (.key "d")).model (.key "y")).calls =
        [ExtCall.killSession (joinStr ", " (attachedSelectedNames m))]
    ∧ (UIUpdate env (UIUpdate env m (.key "d")).model (.key "y")).model.state =
        .sessionListView
    ∧ (∀ ss, (UIUpdate env
        (UIUpdate env (UIUpdate env m (.key "d")).model (.key "y")).model
        (.sessionsLoaded ss)).calls = []) := by
  obtain ⟨b1, b2, b3, b4, _⟩ :=
    step_batch_attached env m "d" hstate hfocus hvis hq hbatch (Or.inl rfl)
  obtain ⟨y1, y2, _, _⟩ :=
    step_confirm_yes env (UIUpdate env m (.key "d")).model "y" b1 b3 (Or.inl rfl)
  refine ⟨b4, ?_, y2, fun ss => step_sessionsLoaded_calls env _ ss⟩
  rw [y1, b2]

/-- A visual-mode model whose selection holds the not-attached `s0` and
the attached `s5`. -/
def batchModel : MainModel :=
  { visualModel with selectedSessions := [0, 5] }

/-- Witness for `batch_delete_single_combined_kill`: with `s0` (not
attached) and `s5` (attached) selected, `d` issues no call and `y` issues
exactly one kill with target `"s5"` — `s0` is never killed. -/
theorem batch_delete_single_combined_kill_witness :
    (UIUpdate sampleEnv batchModel (UIMsg.key "d")).calls = []
    ∧ (UIUpdate sampleEnv (UIUpdate sampleEnv batchModel (UIMsg.key "d")).model
        (UIMsg.key "y")).calls = [ExtCall.killSession "s5"] := by
  obtain ⟨h1, h2, _, _⟩ := batch_delete_single_combined_kill sampleEnv batchModel
    (by decide) (by decide) (by decide) (by decide) (by decide)
  refine ⟨h1, ?_⟩
  rw [h2]
  decide

/-! ### Claim C2 — index-dependent state across list replacements

The invariant the implementation actually maintains: outside visual mode
the selection set is empty, and input focus is only ever held outside
visual mode.  The post-mutation refresh, however, does not reset the
visual-mode selection set or anchor, and a stale selection survives it
(see the counterexample trace). -/

/-- The index-state invariant the handlers maintain: outside visual mode
the selection set is empty; input focus is held only outside visual
mode; and visual mode exists only in the session-list and confirm-delete
views. -/
abbrev SelInv (m : MainModel) : Prop :=
  (m.visualMode = false → m.selectedSessions = [])
  ∧ (m.inputFocused = true → m.visualMode = false)
  ∧ (m.visualMode = true → m.state = .sessionListView ∨ m.state = .confirmDeleteView)

theorem selInv_clearBanners (m : MainModel) (h : SelInv m) : SelInv (clearBanners m) := by
  obtain ⟨h1, h2, h3⟩ := h
  refine ⟨?_, ?_, ?_⟩ <;> intro hh <;> simp_all

theorem selInv_visual_false (m : MainModel) (h : SelInv m)
    (hs1 : m.state ≠ .sessionListView) (hs2 : m.state ≠ .confirmDeleteView) :
    m.visualMode = false := by
  cases hb : m.visualMode
  · rfl
  · rcases h.2.2 hb with hs | hs
    · exact absurd hs hs1
    · exact absurd hs hs2

theorem selInv_handleCreateModeKeys (m : MainModel) (k : String)
    (hstate : m.state = .createModeView) (h : SelInv m) :
    SelInv (handleCreateModeKeys m k).model := by
  have hv : m.visualMode = false :=
    selInv_visual_false m h (by rw [hstate]; decide) (by rw [hstate]; decide)
  obtain ⟨h1, h2, h3⟩ := h
  unfold handleCreateModeKeys
  try dsimp only
  split_ifs <;> (try split) <;> refine ⟨?_, ?_, ?_⟩ <;> intro hh <;> simp_all

theorem selInv_handleRepoListKeys (m : MainModel) (k : String)
    (hstate : m.state = .repoListView) (h : SelInv m) :
    SelInv (handleRepoListKeys m k).model := by
  have hv : m.visualMode = false :=
    selInv_visual_false m h (by rw [hstate]; decide) (by rw [hstate]; decide)
  obtain ⟨h1, h2, h3⟩ := h
  unfold handleRepoListKeys
  try dsimp only
  split_ifs <;> (try split) <;> refine ⟨?_, ?_, ?_⟩ <;> intro hh <;> simp_all

theorem selInv_handleManualCreateKeys (env : Env) (m : MainModel) (k : String)
    (hstate : m.state = .manualCreateView) (h : SelInv m) :
    SelInv (handleManualCreateKeys env m k).model := by
  have hv : m.visualMode = false :=
    selInv_visual_false m h (by rw [hstate]; decide) (by rw [hstate]; decide)
  obtain ⟨h1, h2, h3⟩ := h
  unfold handleManualCreateKeys
  try dsimp only
  split_ifs <;> (try split) <;> refine ⟨?_, ?_, ?_⟩ <;> intro hh <;> simp_all

theorem selInv_handleManualDirectoryKeys (env : Env) (m : MainModel) (k : String)
    (hstate : m.state = .manualDirectoryView) (h : SelInv m) :
    SelInv (handleManualDirectoryKeys env m k).model := by
  have hv : m.visualMode = false :=
    selInv_visual_false m h (by rw [hstate]; decide) (by rw [hstate]; decide)
  obtain ⟨h1, h2, h3⟩ := h
  unfold handleManualDirectoryKeys
  try dsimp only
  split_ifs <;> (try split) <;> refine ⟨?_, ?_, ?_⟩ <;> intro hh <;> simp_all

theorem selInv_createSessionUI (env : Env) (m : MainModel) (template : SessionTemplate)
    (hv : m.visualMode = false) (h : SelInv m) :
    SelInv (createSessionUI env m template).model := by
  obtain ⟨h1, h2, h3⟩ := h
  unfold createSessionUI
  try dsimp only
  split <;> (try split_ifs) <;> refine ⟨?_, ?_, ?_⟩ <;> intro hh <;> simp_all

theorem selInv_handleTemplateSelectKeys (env : Env) (m : MainModel) (k : String)
    (hstate : m.state = .templateSelectView) (h : SelInv m) :
    SelInv (handleTemplateSelectKeys env m k).model := by
  have hv : m.visualMode = false :=
    selInv_visual_false m h (by rw [hstate]; decide) (by rw [hstate]; decide)
  unfold handleTemplateSelectKeys
  try dsimp only
  split_ifs
  · cases m.selectedRepo <;>
      (obtain ⟨h1, h2, h3⟩ := h; refine ⟨?_, ?_, ?_⟩ <;> intro hh <;> simp_all)
  · exact selInv_createSessionUI env m _ hv h
  · obtain ⟨h1, h2, h3⟩ := h; refine ⟨?_, ?_, ?_⟩ <;> intro hh <;> simp_all
  · obtain ⟨h1, h2, h3⟩ := h; refine ⟨?_, ?_, ?_⟩ <;> intro hh <;> simp_all
  · obtain ⟨h1, h2, h3⟩ := h; refine ⟨?_, ?_, ?_⟩ <;> intro hh <;> simp_all
  · obtain ⟨h1, h2, h3⟩ := h; refine ⟨?_, ?_, ?_⟩ <;> intro hh <;> simp_all

theorem selInv_handleRenameSessionKeys (env : Env) (m : MainModel) (k : String)
    (hstate : m.state = .renameSessionView) (h : SelInv m) :
    SelInv (handleRenameSessionKeys env m k).model := by
  have hv : m.visualMode = false :=
    selInv_visual_false m h (by rw [hstate]; decide) (by rw [hstate]; decide)
  obtain ⟨h1, h2, h3⟩ := h
  unfold handleRenameSessionKeys
  try dsimp only
  split_ifs <;> (try split) <;> refine ⟨?_, ?_, ?_⟩ <;> intro hh <;> simp_all

theorem selInv_handleConfirmDeleteKeys (env : Env) (m : MainModel) (k : String)
    (hstate : m.state = .confirmDeleteView) (h : SelInv m) :
    SelInv (handleConfirmDeleteKeys env m k).model := by
  obtain ⟨h1, h2, h3⟩ := h
  unfold handleConfirmDeleteKeys
  try dsimp only
  split_ifs <;> (try split) <;> refine ⟨?_, ?_, ?_⟩ <;> intro hh <;> simp_all [hstate]

@[simp] theorem model_ite (c : Prop) [Decidable c] (a b : StepResult) :
    (if c then a else b).model = if c then a.model else b.model :=
  apply_ite StepResult.model c a b

@[simp] theorem selectedSessions_ite (c : Prop) [Decidable c] (a b : MainModel) :
    (if c then a else b).selectedSessions =
      if c then a.selectedSessions else b.selectedSessions :=
  apply_ite MainModel.selectedSessions c a b

@[simp] theorem visualMode_ite (c : Prop) [Decidable c] (a b : MainModel) :
    (if c then a else b).visualMode = if c then a.visualMode else b.visualMode :=
  apply_ite MainModel.visualMode c a b

@[simp] theorem inputFocused_ite (c : Prop) [Decidable c] (a b : MainModel) :
    (if c then a else b).inputFocused = if c then a.inputFocused else b.inputFocused :=
  apply_ite MainModel.inputFocused c a b

@[simp] theorem state_ite (c : Prop) [Decidable c] (a b : MainModel) :
    (if c then a else b).state = if c then a.state else b.state :=
  apply_ite MainModel.state c a b

set_option maxHeartbeats 1000000 in
theorem selInv_handleSessionListKeys (env : Env) (m : MainModel) (k : String)
    (hstate : m.state = .sessionListView) (h : SelInv m) :
    SelInv (handleSessionListKeys env m k).model := by
  obtain ⟨h1, h2, h3⟩ := h
  unfold handleSessionListKeys deleteSelectedSessions
  try dsimp only
  by_cases hf : m.inputFocused = true
  · have hv := h2 hf
    have hsel := h1 hv
    rw [if_pos hf]
    split_ifs <;> refine ⟨?_, ?_, ?_⟩ <;> intro hh <;> simp_all
  · rw [if_neg hf]
    by_cases hk : k = "q" ∨ k = "ctrl+c" ∨ k = "esc" ∨ k = "/" ∨ k = "enter"
        ∨ k = "l" ∨ k = "c" ∨ k = "n" ∨ k = "r" ∨ k = "ctrl+v" ∨ k = "j"
        ∨ k = "down" ∨ k = "k" ∨ k = "up" ∨ k = "d" ∨ k = "x"
    · rcases hk with rfl | rfl | rfl | rfl | rfl | rfl | rfl | rfl | rfl | rfl
        | rfl | rfl | rfl | rfl | rfl | rfl <;>
      simp only [String.reduceEq, or_self, or_true, true_or, or_false, false_or,
        reduceIte] <;>
      split_ifs <;>
      first
        | exact ⟨h1, h2, h3⟩
        | (refine ⟨?_, ?_, ?_⟩ <;> intro hh <;> simp_all [hstate])
    · push_neg at hk
      obtain ⟨n1, n2, n3, n4, n5, n6, n7, n8, n9, n10, n11, n12, n13, n14,
        n15, n16⟩ := hk
      simp only [n1, n2, n3, n4, n5, n6, n7, n8, n9, n10, n11, n12, n13, n14,
        n15, n16, or_self, reduceIte, if_neg, false_or]
      exact ⟨h1, h2, h3⟩

/-- The invariant holds for every freshly constructed model. -/
theorem selInv_NewMainModel (templates : List SessionTemplate) (dirs : List String) :
    SelInv (NewMainModel templates dirs) :=
  ⟨fun _ => rfl, fun hf => Bool.noConfusion hf, fun hv => Bool.noConfusion hv⟩

/-- Every key event preserves the index-state invariant. -/
theorem selInv_UIUpdate_key (env : Env) (m : MainModel) (k : String) (h : SelInv m) :
    SelInv (UIUpdate env m (.key k)).model := by
  have hc := selInv_clearBanners m h
  unfold UIUpdate
  by_cases hq : (clearBanners m).quitting = true
  · simp only [hq, if_true]
    exact hc
  · have hq2 : (clearBanners m).quitting = false := by
      cases hb : (clearBanners m).quitting
      · rfl
      · exact absurd hb hq
    simp only [hq2]
    rw [if_neg (by decide)]
    cases hstate2 : (clearBanners m).state
    · exact selInv_handleSessionListKeys env (clearBanners m) k hstate2 hc
    · exact selInv_handleCreateModeKeys (clearBanners m) k hstate2 hc
    · exact selInv_handleRepoListKeys (clearBanners m) k hstate2 hc
    · exact selInv_handleManualCreateKeys env (clearBanners m) k hstate2 hc
    · exact selInv_handleManualDirectoryKeys env (clearBanners m) k hstate2 hc
    · exact selInv_handleTemplateSelectKeys env (clearBanners m) k hstate2 hc
    · exact selInv_handleRenameSessionKeys env (clearBanners m) k hstate2 hc
    · exact hc
    · exact selInv_handleConfirmDeleteKeys env (clearBanners m) k hstate2 hc

/-- A focused key event in the session-list view operates with an empty
selection and leaves it empty. -/
theorem focused_key_selection_empty (env : Env) (m : MainModel) (k : String)
    (h : SelInv m) (hstate : m.state = .sessionListView)
    (hf : m.inputFocused = true) (hq : m.quitting = false) :
    m.selectedSessions = [] ∧ (UIUpdate env m (.key k)).model.selectedSessions = [] := by
  have hsel : m.selectedSessions = [] := h.1 (h.2.1 hf)
  refine ⟨hsel, ?_⟩
  have hq2 : (clearBanners m).quitting = false := by rw [clearBanners_quitting]; exact hq
  unfold UIUpdate
  simp only [hq2]
  rw [if_neg (by decide)]
  rw [clearBanners_state, hstate]
  unfold handleSessionListKeys
  rw [clearBanners_inputFocused]
  rw [if_pos hf]
  split_ifs <;> simp [hsel]

/-- A session-list model with the filter input focused. -/
def focusedModel : MainModel :=
  { NewMainModel [] [] with sessions := sampleSessions, filteredSessions := sampleSessions, itemsLen := 6, inputFocused := true, filterQuery := "s" }

/-- The event trace of a confirmed visual-mode batch delete followed by the
post-mutation session refresh: load six sessions, enter visual mode at the
top, extend the selection to the bottom, request the delete, confirm it,
and receive the refreshed five-session list. -/
def c2Trace : List UIMsg :=
  [UIMsg.sessionsLoaded sampleSessions, UIMsg.key "ctrl+v", UIMsg.key "j",
   UIMsg.key "j", UIMsg.key "j", UIMsg.key "j", UIMsg.key "j", UIMsg.key "d",
   UIMsg.key "y", UIMsg.sessionsLoaded (sampleSessions.take 5)]

/-- Claim C2 counterexample: the post-mutation session refresh (the
sessions-loaded message, main.go lines 186-189) does not reset the
visual-mode selection set or anchor, and the confirm-delete handler
(lines 611-633) never clears them either.  After a confirmed visual-mode
batch delete of all six sessions and the subsequent refresh to the five
surviving sessions, the model is still in visual mode and its selection
set still contains index 5, which is out of bounds for the new
five-element filtered list. -/
theorem sessionsLoaded_stale_selection :
    (runTrace sampleEnv (NewMainModel [] []) c2Trace).1.visualMode = true
    ∧ 5 ∈ (runTrace sampleEnv (NewMainModel [] []) c2Trace).1.selectedSessions
    ∧ (runTrace sampleEnv (NewMainModel [] []) c2Trace).1.filteredSessions.length = 5 := by
  decide

/-- Claim C2 (amended): index-dependent state is kept consistent only on
the filter-query path, not on the post-mutation refresh.  The initial
model satisfies the selection invariant `SelInv` (the selection set is
empty outside visual mode, and a focused filter input implies visual mode
is off), every key event and every sessions-loaded refresh preserves it,
and while the filter input is focused in the session-list view every
keystroke operates on an empty selection and leaves it empty; but the
sessions-loaded refresh leaves the visual-mode selection set, anchor, and
flag entirely unchanged, so a selection index can survive a refresh that
shrinks the list. -/
theorem index_state_on_list_replacement (env : Env) (m : MainModel)
    (templates : List SessionTemplate) (dirs : List String) (k : String)
    (ss : List Session) (h : SelInv m) :
    SelInv (NewMainModel templates dirs)
    ∧ SelInv (UIUpdate env m (.key k)).model
    ∧ SelInv (UIUpdate env m (.sessionsLoaded ss)).model
    ∧ (UIUpdate env m (.sessionsLoaded ss)).model.selectedSessions = m.selectedSessions
    ∧ (UIUpdate env m (.sessionsLoaded ss)).model.visualStart = m.visualStart
    ∧ (UIUpdate env m (.sessionsLoaded ss)).model.visualMode = m.visualMode
    ∧ (m.state = .sessionListView → m.inputFocused = true → m.quitting = false →
        m.selectedSessions = [] ∧ (UIUpdate env m (.key k)).model.selectedSessions = []) := by
  refine ⟨selInv_NewMainModel templates dirs, selInv_UIUpdate_key env m k h, h, rfl, rfl, rfl,
    fun hstate hf hq => focused_key_selection_empty env m k h hstate hf hq⟩

/-- Witness for `index_state_on_list_replacement` at concrete models: the
refresh keeps the concrete selection `[2]` of `visualModel`, and a focused
keystroke on `focusedModel` leaves the selection empty. -/
theorem index_state_on_list_replacement_witness :
    (UIUpdate sampleEnv visualModel
      (.sessionsLoaded (sampleSessions.take 5))).model.selectedSessions = [2]
    ∧ (UIUpdate sampleEnv focusedModel (.key "x")).model.selectedSessions = [] := by
  have h1 := (index_state_on_list_replacement sampleEnv visualModel [] [] "x"
    (sampleSessions.take 5) (by decide)).2.2.2.1
  have h2 := (index_state_on_list_replacement sampleEnv focusedModel [] [] "x"
    [] (by decide)).2.2.2.2.2.2 (by decide) (by decide) (by decide)
  exact ⟨by rw [h1]; decide, h2.2⟩

end Muxyard
